import Mathlib

/-!
Verification development for the `templates` templating engine
(`src/templates/template/__init__.py` and `src/templates/template/safe_eval.py`).

Strings are modelled as lists of characters (`PStr`), so that the positional
rewriting done by `Templar._clean_data` and the slicing done by the Jinja2
header-override parser can be stated exactly.  The external collaborators
(the Jinja2 expression engine, `ast.parse`, `ast.literal_eval`, the Python
builtins namespace and `str()`/`repr()`) are modelled at their interface:
they appear either as parameters of the engine configuration (`EngineCfg`)
or as partial models whose doc comments say so.
-/

/-- Python strings, modelled as lists of characters. -/
abbrev PStr := List Char

/-- Embed a Lean string literal as a `PStr`. -/
def chs (s : String) : PStr := s.data

/-- The single-quote character (used by the partial model of Python `repr`). -/
def squo : Char := Char.ofNat 39

/-- The backslash character. -/
def bsl : Char := Char.ofNat 92

/-- ASCII word character, as matched by the regex class `\w` in the patterns
built by `Templar.__init__` (letters, digits, underscore). -/
def isWordChar (c : Char) : Bool :=
  (97 ≤ c.toNat && c.toNat ≤ 122) || (65 ≤ c.toNat && c.toNat ≤ 90) ||
    (48 ≤ c.toNat && c.toNat ≤ 57) || c.toNat = 95

/-- Whitespace, as matched by the regex class `\s` and by Python `str.strip()`
(space, tab, newline, carriage return, vertical tab, form feed). -/
def isSpaceC (c : Char) : Bool :=
  c.toNat = 32 || c.toNat = 9 || c.toNat = 10 || c.toNat = 13 ||
    c.toNat = 11 || c.toNat = 12

/-- ASCII digit. -/
def isDigitC (c : Char) : Bool := 48 ≤ c.toNat && c.toNat ≤ 57

/-- Strip leading and trailing whitespace (Python `str.strip()`). -/
def trimWs (s : PStr) : PStr :=
  ((s.dropWhile isSpaceC).reverse.dropWhile isSpaceC).reverse

/-- Does `pat` occur as a contiguous substring of `s` (Python `pat in s`)? -/
def containsSub (pat : PStr) : PStr → Bool
  | [] => pat.isPrefixOf []
  | c :: rest => pat.isPrefixOf (c :: rest) || containsSub pat rest

/-- All ways of splitting a list into a prefix and a suffix. -/
def splitsOf (l : PStr) : List (PStr × PStr) :=
  (List.range (l.length + 1)).map (fun i => (l.take i, l.drop i))

/-- Python `str.split(sep)` for a one-character separator (keeps empty parts). -/
def splitOnChar (c : Char) : PStr → List PStr
  | [] => [[]]
  | x :: xs =>
    if x = c then [] :: splitOnChar c xs
    else
      match splitOnChar c xs with
      | h :: t => (x :: h) :: t
      | [] => [[x]]

/-- Python slice `l[a:b]` for `0 ≤ a ≤ b` (indices clamped to the length). -/
def sliceList (l : PStr) (a b : Nat) : PStr := (l.take b).drop a

/-!
## The sandboxed evaluator (`src/templates/template/safe_eval.py`)

`safe_eval` parses its input with `ast.parse(expr, mode='eval')`, walks the
tree with `CleansingNodeVisitor` (rejecting any node whose type is not in
`SAFE_NODES`, and any `Name` node inside a `Call` whose id is a Python
builtin not in the callable whitelist), and only then evaluates the
compiled expression with the JSON constants as globals and the caller's
variables as locals.  `ast.parse` itself is external; the model therefore
takes the parse outcome as an argument.
-/

/-- Python `ast` expression nodes, as produced by `ast.parse(expr, mode='eval')`.
Binary/unary/comparison operator nodes (`ast.Add`, `ast.USub`, `ast.Eq`, ...)
are child AST nodes in Python; here they are carried as tags and checked by
`cnvCheck` exactly where `ast.iter_child_nodes` would visit them. -/
inductive BOp where
  | addOp | subOp | multOp | divOp
  | modOp | powOp | floorDivOp | otherBOp

/-- Unary operator nodes (`ast.USub`, `ast.UAdd`, `ast.Not`, `ast.Invert`).
None of these types is in `SAFE_NODES`. -/
inductive UOp where
  | usub | uadd | notOp | invert

/-- Comparison operator nodes (`ast.Eq`, `ast.Lt`, ...).
None of these types is in `SAFE_NODES`. -/
inductive COp where
  | eqOp | ltOp | otherCOp

/-- `ast.NameConstant` payloads (`True`, `False`, `None`). -/
inductive NameConstVal where
  | ncTrue | ncFalse | ncNone

inductive PyAst where
  | expression (body : PyAst)
  | num (n : Int)
  | strL (s : PStr)
  | nameC (v : NameConstVal)
  | name (id : PStr)
  | binop (op : BOp) (l r : PyAst)
  | unaryop (op : UOp) (operand : PyAst)
  | compare (l : PyAst) (ops : List COp) (comparators : List PyAst)
  | call (fn : PyAst) (args : List PyAst)
  | listL (elts : List PyAst)
  | tupleL (elts : List PyAst)
  | setL (elts : List PyAst)
  | dictL (keys : List PyAst) (vals : List PyAst)
  | attribute (value : PyAst) (attr : PStr)
  | subscript (value : PyAst) (idx : PyAst)

/-- Is a binary operator node type in `SAFE_NODES`
(`ast.Add`, `ast.Sub`, `ast.Mult`, `ast.Div` are; others are not)? -/
def isSafeBOp : BOp → Bool
  | .addOp | .subOp | .multOp | .divOp => true
  | _ => false

/-- `DEFAULT_CALLABLE_WHITELIST` from `safe_eval.py`: the empty list. -/
def DEFAULT_CALLABLE_WHITELIST : List PStr := []

/-- Finite model of `hasattr(builtins, name)`: names that exist in the Python
builtins namespace.  The Python namespace is larger; this model lists the
builtins relevant to the sandbox claims. -/
def isBuiltinName (s : PStr) : Bool :=
  s = chs "__import__" || s = chs "eval" || s = chs "exec" || s = chs "open" ||
    s = chs "compile" || s = chs "getattr" || s = chs "setattr" ||
    s = chs "globals" || s = chs "locals" || s = chs "vars" ||
    s = chs "input" || s = chs "len" || s = chs "dir"

/-- The exceptions that `CleansingNodeVisitor` and the `eval` call can raise
inside `safe_eval`'s `try` block (all are caught by `except Exception`). -/
inductive EvalEx where
  | invalidExpression
  | invalidFunction
  | evalFailure

mutual
/-- `CleansingNodeVisitor.generic_visit` from `safe_eval.py`: rejects any node
whose type is not in `SAFE_NODES`; marks `inside_call` when passing a `Call`
node; rejects a `Name` inside a call whose id is a builtin not in
`CALL_WHITELIST`.  Children are visited in `ast.iter_child_nodes` order
(so a `BinOp`'s operator node is checked between its operands, a `UnaryOp`'s
operator node first, a `Compare`'s operator nodes after its left operand,
a `Dict`'s keys before its values). -/
def cnvCheck : PyAst → Bool → Except EvalEx Unit
  | .expression b, ic => cnvCheck b ic
  | .num _, _ => .ok ()
  | .strL _, _ => .ok ()
  | .nameC _, _ => .ok ()
  | .name id, ic =>
    if ic && (isBuiltinName id && !(DEFAULT_CALLABLE_WHITELIST.contains id)) then
      .error .invalidFunction
    else .ok ()
  | .binop op l r, ic => do
    cnvCheck l ic
    if isSafeBOp op then
      cnvCheck r ic
    else .error .invalidExpression
  | .unaryop _ _, _ =>
    -- the operator child (`ast.USub` etc.) is visited first and its type is
    -- never in `SAFE_NODES`, so every `UnaryOp` is rejected
    .error .invalidExpression
  | .compare l ops comparators, ic => do
    cnvCheck l ic
    if ops.isEmpty then cnvCheckList comparators ic
    else
      -- comparison operator node types (`ast.Eq` etc.) are not in `SAFE_NODES`
      .error .invalidExpression
  | .call f args, _ => do
    cnvCheck f true
    cnvCheckList args true
  | .listL es, ic => cnvCheckList es ic
  | .tupleL es, ic => cnvCheckList es ic
  | .setL es, ic => cnvCheckList es ic
  | .dictL ks vs, ic => do
    cnvCheckList ks ic
    cnvCheckList vs ic
  | .attribute _ _, _ => .error .invalidExpression
  | .subscript _ _, _ => .error .invalidExpression

def cnvCheckList : List PyAst → Bool → Except EvalEx Unit
  | [], _ => .ok ()
  | x :: xs, ic => do
    cnvCheck x ic
    cnvCheckList xs ic
end

/-- Does the visitor accept the tree (no exception raised)? -/
def cnvAccepts (t : PyAst) (ic : Bool) : Bool :=
  match cnvCheck t ic with
  | .ok _ => true
  | .error _ => false

/-- Python values, as handled by `Templar.template` and `safe_eval`.
A tainted (unsafe) string is a `str` subclass carrying the `__UNSAFE__`
attribute (`vunsafeText`); the non-text taint wrapper with its `_obj`
attribute is `vunsafeProxy`.  The wrapper class itself
(`templates.vars.unsafe_proxy`) is not under `src/`; these two
constructors are modelled from the spec's TaintTracker (a value plus a
taint flag, with the underlying value recoverable). -/
inductive Value where
  | vstr (s : PStr)
  | vint (n : Int)
  | vbool (b : Bool)
  | vnone
  | vlist (xs : List Value)
  | vtuple (xs : List Value)
  | vset (xs : List Value)
  | vdict (entries : List (Value × Value))
  | vunsafeText (s : PStr)
  | vunsafeProxy (obj : Value)

/-- `hasattr(value, '__UNSAFE__')`. -/
def hasUnsafeAttr : Value → Bool
  | .vunsafeText _ => true
  | .vunsafeProxy _ => true
  | _ => false

/-- The variable environment (`Templar._available_variables`): a Python dict,
i.e. an association list of key/value pairs. -/
abbrev VarEnv := List (Value × Value)

/-- Look up a string key in the environment (Python `d[name]` for a `str`
name: only string keys can compare equal to it). -/
def lookupName (n : PStr) : VarEnv → Option Value
  | [] => none
  | (k, v) :: rest =>
    match k with
    | .vstr m => if m = n then some v else lookupName n rest
    | _ => lookupName n rest

/-- Errors raised during evaluation of the compiled expression
(`eval(compiled, JSON_TYPES, dict(locals))`).  All are caught by
`safe_eval`'s `except Exception`. -/
inductive EvalErr where
  | nameError
  | typeError
  | unsupportedOp

mutual
/-- Evaluation of the compiled expression tree, modelling
`eval(compiled, JSON_TYPES, dict(locals))`: names resolve in the locals
first, then in the JSON globals `true`/`false`/`null`.  (Python's `eval`
would additionally fall back to the real builtins namespace; environment
values in this model are data, not callables, so calls, attribute access
and builtin fallback evaluate to errors — all of which `safe_eval`
catches.)  Unary and comparison operators are unreachable here because
`cnvCheck` rejects their operator nodes; division is left as an error
since `from __future__ import division` makes it produce floats, which
this model does not represent. -/
def pyEval : PyAst → VarEnv → Except EvalErr Value
  | .expression b, env => pyEval b env
  | .num n, _ => .ok (.vint n)
  | .strL s, _ => .ok (.vstr s)
  | .nameC .ncTrue, _ => .ok (.vbool true)
  | .nameC .ncFalse, _ => .ok (.vbool false)
  | .nameC .ncNone, _ => .ok .vnone
  | .name id, env =>
    match lookupName id env with
    | some v => .ok v
    | none =>
      if id = chs "true" then .ok (.vbool true)
      else if id = chs "false" then .ok (.vbool false)
      else if id = chs "null" then .ok .vnone
      else .error .nameError
  | .binop op l r, env => do
    let v1 ← pyEval l env
    let v2 ← pyEval r env
    match op, v1, v2 with
    | .addOp, .vint a, .vint b => .ok (.vint (a + b))
    | .addOp, .vstr a, .vstr b => .ok (.vstr (a ++ b))
    | .addOp, .vlist a, .vlist b => .ok (.vlist (a ++ b))
    | .subOp, .vint a, .vint b => .ok (.vint (a - b))
    | .multOp, .vint a, .vint b => .ok (.vint (a * b))
    | _, _, _ => .error .typeError
  | .unaryop _ _, _ => .error .unsupportedOp
  | .compare _ _ _, _ => .error .unsupportedOp
  | .call _ _, _ => .error .typeError
  | .listL es, env => (pyEvalList es env).map .vlist
  | .tupleL es, env => (pyEvalList es env).map .vtuple
  | .setL es, env => (pyEvalList es env).map .vset
  | .dictL ks vs, env => do
    let kvals ← pyEvalList ks env
    let vvals ← pyEvalList vs env
    .ok (.vdict (kvals.zip vvals))
  | .attribute _ _, _ => .error .unsupportedOp
  | .subscript _ _, _ => .error .unsupportedOp

def pyEvalList : List PyAst → VarEnv → Except EvalErr (List Value)
  | [], _ => .ok []
  | x :: xs, env => do
    let v ← pyEval x env
    let vs ← pyEvalList xs env
    .ok (v :: vs)
end

/-- The syntax error raised by `ast.parse` (external). -/
structure SynErr where
  msg : PStr

/-- Result of `safe_eval` when called on a string: either an evaluated value
or a string handed back. -/
inductive SEOut where
  | val (v : Value)
  | strOut (s : PStr)

/-- `safe_eval(expr, locals, include_exceptions=True)` on a string input.
`parsed` is the outcome of the external `ast.parse(expr, mode='eval')`.
On `SyntaxError` the code returns `(expr, None)`; on any other exception
(visitor rejection or evaluation failure) it returns `(expr, e)`;
on success `(result, None)`. -/
def safe_eval_exc (expr : PStr) (parsed : Except SynErr PyAst) (env : VarEnv) :
    SEOut × Option EvalEx :=
  match parsed with
  | .error _ => (.strOut expr, none)
  | .ok t =>
    match cnvCheck t false with
    | .error e => (.strOut expr, some e)
    | .ok _ =>
      match pyEval t env with
      | .ok v => (.val v, none)
      | .error _ => (.strOut expr, some .evalFailure)

/-- `safe_eval(expr, locals, include_exceptions=False)` on a string input:
the same control flow with the exception dropped (in every branch of the
source the value returned is the first component of the
`include_exceptions=True` pair). -/
def safe_eval (expr : PStr) (parsed : Except SynErr PyAst) (env : VarEnv) : SEOut :=
  (safe_eval_exc expr parsed env).1

/-!
## Delimiter neutralization (`Templar._clean_data`)

`_clean_data` scans the original string with the regex
`(?:{{|{%|%}|}})` (the four Jinja2 delimiters of the default
environment, in the order variable-start, block-start, block-end,
variable-end), keeps one stack of opening positions per delimiter kind,
and for every close token that matches a pending open overwrites the two
characters of the open with the comment-start token and the two
characters of the close with the comment-end token in a `StringIO` copy
of the input.  The scan positions come from the original string, so the
overwrites never affect the scan.
-/

/-- The four delimiter tokens recognized by `Templar._clean_regex`. -/
inductive Tok where
  | varS   -- variable_start_string, two open braces
  | blkS   -- block_start_string, open brace + percent
  | blkE   -- block_end_string, percent + close brace
  | varE   -- variable_end_string, two close braces
  deriving DecidableEq

/-- The two characters of each delimiter token. -/
def tokChars : Tok → Char × Char
  | .varS => ('{', '{')
  | .blkS => ('{', '%')
  | .blkE => ('%', '}')
  | .varE => ('}', '}')

/-- Which token (if any) the regex matches at a position starting with the
two given characters.  The alternatives share no common match, so
alternation order does not matter for which token is found. -/
def tokOf (a b : Char) : Option Tok :=
  if a = '{' && b = '{' then some .varS
  else if a = '{' && b = '%' then some .blkS
  else if a = '%' && b = '}' then some .blkE
  else if a = '}' && b = '}' then some .varE
  else none

/-- `re.finditer` of `Templar._clean_regex` over the input: the list of
(match position, token) pairs, scanning left to right, each match
consuming its two characters. -/
def scanToks : List Char → Nat → List (Nat × Tok)
  | c1 :: c2 :: rest, i =>
    match tokOf c1 c2 with
    | some t => (i, t) :: scanToks rest (i + 2)
    | none => scanToks (c2 :: rest) (i + 1)
  | _, _ => []

/-- The stack machine of `_clean_data`: `ps` is `print_openings`, `bs` is
`block_openings` (heads are the most recent pushes, matching `list.pop()`).
The output is the list of (open position, close position) pairs replaced,
in processing order. -/
def processToks : List (Nat × Tok) → List Nat → List Nat → List (Nat × Nat)
  | [], _, _ => []
  | (i, .varS) :: rest, ps, bs => processToks rest (i :: ps) bs
  | (i, .blkS) :: rest, ps, bs => processToks rest ps (i :: bs)
  | (i, .blkE) :: rest, ps, b :: bs => (b, i) :: processToks rest ps bs
  | (_, .blkE) :: rest, ps, [] => processToks rest ps []
  | (i, .varE) :: rest, p :: ps, bs => (p, i) :: processToks rest ps bs
  | (_, .varE) :: rest, [], bs => processToks rest [] bs

/-- Overwrite a matched pair: two characters of comment-start at the open
position and two characters of comment-end at the close position
(`data.seek(...); data.write(...)` on the `StringIO` copy). -/
def applyPair (l : List Char) (pr : Nat × Nat) : List Char :=
  (((l.set pr.1 '{').set (pr.1 + 1) '#').set pr.2 '#').set (pr.2 + 1) '}'

/-- The matched pairs `_clean_data` rewrites in a given string. -/
def cleanPairs (s : PStr) : List (Nat × Nat) :=
  processToks (scanToks s 0) [] []

/-- The string-rewriting core of `Templar._clean_data`. -/
def cleanStr (s : PStr) : PStr :=
  (cleanPairs s).foldl applyPair s

/-- `Templar._clean_data` on a value: non-strings and values carrying the
`__UNSAFE__` attribute are returned unchanged; plain text goes through the
delimiter rewriting. -/
def cleanDataV : Value → Value
  | .vstr s => .vstr (cleanStr s)
  | v => v

/-!
## The template engine (`Templar`, `src/templates/template/__init__.py`)

The Jinja2 expression engine is an external collaborator: compiling a
template (`Environment.from_string`) and rendering it
(`root_render_func` / `j2_concat`, including the `TemplatesContext`
unsafe-detection flag) appear as functions of an `EngineCfg`, together
with the lexer-dependent core of `_escape_backslashes` and `ast.parse`
as used by `safe_eval`.  Everything else — header-override parsing,
newline bookkeeping, error translation, the single-variable shortcut,
the cache, and the value dispatch — is translated from the source.
-/

/-- Python literal values produced by `ast.literal_eval` on header-override
values. -/
inductive Lit where
  | lbool (b : Bool)
  | lint (n : Int)
  | lstr (s : PStr)
  | lnone
  deriving DecidableEq

/-- Partial model of `ast.literal_eval` (Python stdlib, external): the
literal forms exercised by header overrides.  `none` models the
`ValueError`/`SyntaxError` raised on anything else. -/
def literalEval (s : PStr) : Option Lit :=
  if s = chs "True" then some (.lbool true)
  else if s = chs "False" then some (.lbool false)
  else if s = chs "None" then some .lnone
  else if s ≠ [] && s.all isDigitC then
    some (.lint (s.foldl (fun acc c => acc * 10 + (c.toNat - 48 : Int)) 0))
  else none

/-- Errors (exception kinds) that can escape the engine's methods:
`TemplatesUndefinedVariable`, `TemplatesError` (template syntax or
unexpected type error), the recursive-loop `TemplatesError`,
`TemplatesFilterError`, Python `AttributeError` (reading the never-set
`_fail_on_filter_errors`), `AssertionError` from
`set_available_variables` (the spec's InvalidArgument kind), and
`ValueError` from header-override parsing. -/
inductive TErr where
  | undefinedVar
  | templatesError
  | recursiveLoop
  | filterError
  | attributeError
  | invalidArgument
  | valueError
  deriving DecidableEq

/-- Errors of the external `Environment.from_string` call: a
`TemplateSyntaxError`, or a generic exception whose message does or does
not contain the word `recursion`. -/
inductive InitErr where
  | templateSyntax
  | otherRecursion
  | otherPlain

/-- Errors of the external render call (`root_render_func`/`j2_concat`):
Jinja2 `UndefinedError`; a `TypeError` whose message does or does not
mention `StrictUndefined`; a `TemplatesFilterError` raised by a filter. -/
inductive RendErr where
  | undefinedError
  | typeErrorStrict
  | typeErrorOther
  | filterError

/-- The `overrides` argument of `template()`: per-call Jinja2 environment
overrides (`None` or a mapping), applied via `Environment.overlay`. -/
abbrev Ov := Option (List (PStr × Lit))

/-- The external expression engine and parser, at their interface.
`fromString` and `renderStr` receive the payload, the `overrides`
argument and the header-override assignments (the `setattr` calls on the
overlay environment). -/
structure EngineCfg where
  fromString : PStr → Ov → List (PStr × Lit) → Except InitErr Unit
  renderStr : PStr → VarEnv → Ov → List (PStr × Lit) → Except RendErr (PStr × Bool)
  escapeBs : PStr → PStr
  parseEval : PStr → Except SynErr PyAst

/-- The keyword options of `Templar.template`, with the source's default
values.  `bareDeprecated` only controls a logged warning. -/
structure TOpts where
  convertBare : Bool := false
  preserveTrailingNewlines : Bool := true
  escapeBackslashes : Bool := true
  failOnUndefined : Option Bool := none
  overrides : Ov := none
  convertData : Bool := true
  staticVars : List PStr := [chs ""]
  cache : Bool := true
  bareDeprecated : Bool := true

/-- `NON_TEMPLATED_TYPES = (bool, Number)`: is the value an instance of one
of the primitive types the single-variable shortcut returns raw? -/
def isNonTemplatedType : Value → Bool
  | .vbool _ => true
  | .vint _ => true
  | _ => false

/-- `DEFAULT_NULL_REPRESENTATION = None`. -/
def DEFAULT_NULL_REPRESENTATION : Value := .vnone

/-- `JINJA2_OVERRIDE = '#jinja2:'`. -/
def JINJA2_OVERRIDE : PStr := chs "#jinja2:"

/-- `Templar._count_newlines_from_end`: the number of newline characters at
the end of the string (the `IndexError` branch for the empty and
all-newline strings returns the length, which is that count). -/
def countNewlinesFromEnd (l : PStr) : Nat :=
  (l.reverse.takeWhile (fun c => c = '\n')).length

/-- `Templar._contains_vars`: does the data contain the block-start,
variable-start or comment-start marker? -/
def containsVars (s : PStr) : Bool :=
  containsSub ['{', '%'] s || containsSub ['{', '{'] s || containsSub ['{', '#'] s

/-- `Templar.SINGLE_VAR`, the regex `^{{\s*(\w*)\s*}}$` built from the
variable delimiters: if the whole payload is exactly one variable
reference, return the captured name.  A string matches the pattern iff it
is the two-character variable-start, then whitespace, then word
characters, then whitespace, then the variable-end; the captured group is
the word-character middle. -/
def singleVar (s : PStr) : Option PStr :=
  if (['{', '{'] : PStr).isPrefixOf s && (['}', '}'] : PStr).isSuffixOf s &&
      4 ≤ s.length then
    let mid := (s.drop 2).take (s.length - 4)
    let t := trimWs mid
    if mid.all (fun c => isWordChar c || isSpaceC c) && t.all isWordChar then
      some t
    else none
  else none

/-- `STRING_TYPE_FILTERS`. -/
def STRING_TYPE_FILTERS : List PStr :=
  [chs "string", chs "to_json", chs "to_nice_json", chs "to_yaml",
    chs "ppretty", chs "json"]

/-- Tail of `Templar._no_type_regex` after the filter name:
`\s*(?:}})?$` — whitespace, an optional variable-end token, and then the
end anchor (`$` accepts the end of the string or a position just before a
final newline). -/
def noTypeTail (c : PStr) : Bool :=
  (splitsOf c).any (fun w =>
    w.1.all isSpaceC &&
      (w.2 = [] || w.2 = ['\n'] || w.2 = ['}', '}'] || w.2 = ['}', '}', '\n']))

/-- Part of `Templar._no_type_regex` after the pipe: `\s*`, one of
`STRING_TYPE_FILTERS`, then `noTypeTail`. -/
def noTypeAfterPipe (b : PStr) : Bool :=
  (splitsOf b).any (fun w =>
    w.1.all isSpaceC &&
      STRING_TYPE_FILTERS.any (fun f =>
        f.isPrefixOf w.2 && noTypeTail (w.2.drop f.length)))

/-- `Templar._no_type_regex.match(variable)`: the regex
`.*\|\s*(?:string|to_json|to_nice_json|to_yaml|ppretty|json)\s*(?:}})?$`,
anchored at the start; `.*` does not cross a newline. -/
def noTypeMatch (s : PStr) : Bool :=
  (splitsOf s).any (fun w =>
    w.1.all (fun c => c ≠ '\n') &&
      match w.2 with
      | c :: b => c = '|' && noTypeAfterPipe b
      | [] => false)

/-- `Templar._convert_bare_variable` on a string: wrap it in variable
delimiters when it contains a filter pipe or its first part (before any
`|`, `.` or `[`) is a known variable, and it does not already contain the
variable-start marker.  (The deprecation warning is only logged.) -/
def convertBareVariable (env : VarEnv) (s : PStr) : PStr :=
  let containsFilters := s.contains '|'
  let firstPart := s.takeWhile (fun c => c ≠ '|' && c ≠ '.' && c ≠ '[')
  if (containsFilters || (lookupName firstPart env).isSome) &&
      !(containsSub ['{', '{'] s) then
    ['{', '{'] ++ s ++ ['}', '}']
  else s

/-- One `key:value` pair of a `#jinja2:` header line: split on `:` must
give exactly two parts (otherwise the tuple unpacking raises
`ValueError`), the key is stripped, the value is stripped and passed to
`ast.literal_eval`. -/
def parseHeaderPair (pair : PStr) : Except TErr (PStr × Lit) :=
  match splitOnChar ':' pair with
  | [k, v] =>
    match literalEval (trimWs v) with
    | some lit => .ok (trimWs k, lit)
    | none => .error .valueError
  | _ => .error .valueError

/-- A whole header line: comma-separated `key:value` pairs. -/
def parseHeaderLine (line : PStr) : Except TErr (List (PStr × Lit)) :=
  (splitOnChar ',' line).mapM parseHeaderPair

/-- The `#jinja2:` header handling of `Templar._do_template`: when the data
starts with the override marker, the first line (up to `data.find('\n')`,
which is `-1` when there is no newline, making the slice `data[8:-1]` and
leaving the data unchanged) is parsed as overrides and stripped from the
payload. -/
def headerOverrides (data : PStr) : Except TErr (PStr × List (PStr × Lit)) :=
  if JINJA2_OVERRIDE.isPrefixOf data then
    let cut : PStr × PStr :=
      match data.findIdx? (fun c => c = '\n') with
      | some e => (sliceList data 8 e, data.drop (e + 1))
      | none => (sliceList data 8 (data.length - 1), data)
    match parseHeaderLine cut.1 with
    | .ok prs => .ok (cut.2, prs)
    | .error e => .error e
  else .ok (data, [])

/-- The guard inside `_escape_backslashes`: the doubling pass (which needs
the external lexer, `cfg.escapeBs`) only runs when the data contains a
backslash and the variable-start marker. -/
def escapeBackslashesFn (cfg : EngineCfg) (d : PStr) : PStr :=
  if d.contains bsl && containsSub ['{', '{'] d then cfg.escapeBs d else d

/-- `Templar._do_template`: header overrides, optional backslash escaping,
template compilation and rendering through the external engine, error
translation, trailing-newline restoration, and the undefined-variable
policy.  Returns the rendered string together with the context's unsafe
flag (`wrap_var` applied to the result is modelled by that flag). -/
def doTemplate (cfg : EngineCfg) (env : VarEnv) (data : PStr)
    (preserveNl escBs fou : Bool) (ov : Ov) : Except TErr (PStr × Bool) :=
  let dataNl := countNewlinesFromEnd data
  match headerOverrides data with
  | .error e => .error e
  | .ok (data1, hdr) =>
    let data2 := if escBs then escapeBackslashesFn cfg data1 else data1
    match cfg.fromString data2 ov hdr with
    | .error .templateSyntax => .error .templatesError
    | .error .otherRecursion => .error .recursiveLoop
    | .error .otherPlain => .ok (data2, false)
    | .ok _ =>
      match cfg.renderStr data2 env ov hdr with
      | .error .undefinedError =>
        if fou then .error .undefinedVar else .ok (data2, false)
      | .error .typeErrorStrict =>
        if fou then .error .undefinedVar else .ok (data2, false)
      | .error .typeErrorOther => .error .templatesError
      | .error .filterError => .error .filterError
      | .ok (res, uns) =>
        if preserveNl && countNewlinesFromEnd res < dataNl then
          .ok (res ++ List.replicate (dataNl - countNewlinesFromEnd res) '\n', uns)
        else .ok (res, uns)

/-- `text_type(b)` for a boolean (used in the options digest). -/
def reprBool (b : Bool) : PStr := if b then chs "True" else chs "False"

/-- `text_type(lit)` for the literal values (partial-interface model of `str()`). -/
def reprLit : Lit → PStr
  | .lbool b => reprBool b
  | .lint n => chs (toString n)
  | .lstr s => s
  | .lnone => chs "None"

/-- `text_type(overrides)`: `None` or the textual form of the mapping.  The
model keeps the digest input deterministic; sha1 itself is modelled as an
injective digest, i.e. the cache key is the digest preimage. -/
def reprOv : Ov → PStr
  | none => chs "None"
  | some l =>
    ['{'] ++ (l.map (fun kv => kv.1 ++ [':'] ++ reprLit kv.2)).foldl
      (fun acc p => acc ++ p ++ [',']) [] ++ ['}']

/-- The cache key of `Templar.template`: the digest of the exact payload
together with the digest of
`text_type(preserve_trailing_newlines) + text_type(escape_backslashes) +
text_type(fail_on_undefined) + text_type(overrides)`. -/
def cacheKey (s : PStr) (preserveNl escBs fou : Bool) (ov : Ov) : PStr × PStr :=
  (s, reprBool preserveNl ++ reprBool escBs ++ reprBool fou ++ reprOv ov)

/-- `Templar._cached_result`: a dict from cache keys to already-templated
results (stored after literal coercion). -/
abbrev Cache := List ((PStr × PStr) × Value)

/-- Dict lookup in the cache. -/
def lookupCache (c : Cache) (k : PStr × PStr) : Option Value :=
  match c.find? (fun e => e.1 = k) with
  | some e => some e.2
  | none => none

/-- Modelled from the spec: `templates.vars.unsafe_proxy.wrap_var` is not
under `src/`; per the spec's TaintTracker, wrapping marks a value as
tainted and is idempotent. -/
def wrapVar : Value → Value
  | .vstr s => .vunsafeText s
  | .vunsafeText s => .vunsafeText s
  | .vunsafeProxy o => .vunsafeProxy o
  | v => .vunsafeProxy v

/-- The rendered string as a value, tainted when the render was. -/
def strResult (s : PStr) (uns : Bool) : Value :=
  if uns then .vunsafeText s else .vstr s

/-- The condition of the literal-coercion attempt on a rendered result:
it looks like a dict (but not like a variable marker), like a list, or
like a boolean literal. -/
def coerceGuard (res : PStr) : Bool :=
  (decide (res.head? = some '{') && !((['{', '{'] : PStr).isPrefixOf res)) ||
    decide (res.head? = some '[') || res = chs "True" || res = chs "False"

/-- The `convert_data` block of `Templar.template`: when the payload does
not end in a string-type filter and the rendered result looks like a
container or boolean literal, run it through `safe_eval` (with the
available variables as locals and `include_exceptions=True`); keep the
evaluated value on success (re-wrapped if the render was tainted), keep
the rendered string otherwise. -/
def coerceResult (cfg : EngineCfg) (env : VarEnv) (payload res : PStr)
    (uns : Bool) (convertData : Bool) : Value :=
  if convertData && !(noTypeMatch payload) && coerceGuard res then
    match safe_eval_exc res (cfg.parseEval res) env with
    | (out, none) =>
      -- `eval_results[1] is None`: success (also the SyntaxError branch,
      -- whose first component is the unchanged string)
      match out with
      | .val v => if uns then wrapVar v else v
      | .strOut s2 => strResult s2 uns
    | (_, some _) => strResult res uns
  else strResult res uns

/-- The single-variable shortcut of `Templar.template`: when the whole
payload is exactly one variable reference whose name is bound, return the
raw value for the non-templated primitive types and the configured null
representation for `None`; otherwise fall through. -/
def shortcutVal (env : VarEnv) (s : PStr) : Option Value :=
  match singleVar s with
  | none => none
  | some n =>
    match lookupName n env with
    | none => none
    | some rv =>
      if isNonTemplatedType rv then some rv
      else
        match rv with
        | .vnone => some DEFAULT_NULL_REPRESENTATION
        | _ => none

/-- The scalar-string path of `Templar.template` (after the unsafe check,
bare conversion and the `isinstance(variable, string_types)` test), with
`fou` the already-resolved `fail_on_undefined`.  The third component
counts the renders performed (`_do_template` invocations), making "served
from the cache without re-rendering" observable. -/
def templateStr (cfg : EngineCfg) (env : VarEnv) (cache : Cache) (s : PStr)
    (o : TOpts) (fou : Bool) : Except TErr Value × Cache × Nat :=
  if containsVars s = false then (.ok (.vstr s), cache, 0)
  else
    match shortcutVal env s with
    | some v => (.ok v, cache, 0)
    | none =>
      let key := cacheKey s o.preserveTrailingNewlines o.escapeBackslashes fou o.overrides
      match (if o.cache then lookupCache cache key else none) with
      | some r => (.ok r, cache, 0)
      | none =>
        match doTemplate cfg env s o.preserveTrailingNewlines o.escapeBackslashes
            fou o.overrides with
        | .error e => (.error e, cache, 1)
        | .ok (res, uns) =>
          let result := coerceResult cfg env s res uns o.convertData
          (.ok result,
            (if o.cache then (key, result) :: cache else cache), 1)

/-- The options passed to the recursive `template` calls for sequence
elements and mapping values: only `preserve_trailing_newlines`,
`fail_on_undefined` (already resolved) and `overrides` are forwarded;
everything else reverts to the defaults. -/
def childOpts (o : TOpts) (fou : Bool) : TOpts :=
  { preserveTrailingNewlines := o.preserveTrailingNewlines,
    failOnUndefined := some fou,
    overrides := o.overrides }

/-- Python `k not in static_vars` for a mapping key `k` compared against a
list of strings. -/
def keyInStatic (staticVars : List PStr) : Value → Bool
  | .vstr s => staticVars.contains s
  | .vunsafeText s => staticVars.contains s
  | _ => false


mutual
/-- `Templar.template`: the unsafe-value branch (clean instead of render,
the text form cleaned directly, the proxy form cleaned through its
`_obj`), then the `try` body with bare conversion and shape dispatch, and
the `except TemplatesFilterError` handler, which reads the never-set
attribute `_fail_on_filter_errors` (`fof`, `none` when unset as in
`Templar.__init__`, raising `AttributeError`).  The third component
counts `_do_template` invocations. -/
def templateV (cfg : EngineCfg) (fof : Option Bool) (fouDefault : Bool)
    (env : VarEnv) (cache : Cache) (v : Value) (o : TOpts) :
    Except TErr Value × Cache × Nat :=
  let fou := o.failOnUndefined.getD fouDefault
  match v with
  | .vunsafeText s => (.ok (cleanDataV (.vunsafeText s)), cache, 0)
  | .vunsafeProxy obj => (.ok (cleanDataV obj), cache, 0)
  | w =>
    match templateBody cfg fof fouDefault env cache w o fou with
    | (.error .filterError, c2, n) =>
      match fof with
      | none => (.error .attributeError, c2, n)
      | some true => (.error .filterError, c2, n)
      | some false =>
        -- `return variable`: the variable local, after bare conversion
        (.ok (match w with
          | .vstr s => .vstr (if o.convertBare then convertBareVariable env s else s)
          | other => other), c2, n)
    | r => r
termination_by (sizeOf v, 1)

/-- The `try` body of `Templar.template`: bare conversion, then dispatch on
the value's shape (string / list or tuple / dict / anything else). -/
def templateBody (cfg : EngineCfg) (fof : Option Bool) (fouDefault : Bool)
    (env : VarEnv) (cache : Cache) (v : Value) (o : TOpts) (fou : Bool) :
    Except TErr Value × Cache × Nat :=
  match v with
  | .vstr s =>
    let s2 := if o.convertBare then convertBareVariable env s else s
    templateStr cfg env cache s2 o fou
  | .vlist xs =>
    match templateList cfg fof fouDefault env cache xs (childOpts o fou) with
    | (.ok ys, c2, n) => (.ok (.vlist ys), c2, n)
    | (.error e, c2, n) => (.error e, c2, n)
  | .vtuple xs =>
    -- `isinstance(variable, (list, tuple))`: tuples also come back as lists
    match templateList cfg fof fouDefault env cache xs (childOpts o fou) with
    | (.ok ys, c2, n) => (.ok (.vlist ys), c2, n)
    | (.error e, c2, n) => (.error e, c2, n)
  | .vdict entries =>
    match templateDict cfg fof fouDefault env cache entries (childOpts o fou)
        o.staticVars with
    | (.ok ys, c2, n) => (.ok (.vdict ys), c2, n)
    | (.error e, c2, n) => (.error e, c2, n)
  | other => (.ok other, cache, 0)
termination_by (sizeOf v, 0)

/-- The list comprehension over sequence elements, threading the shared
cache and stopping at the first exception. -/
def templateList (cfg : EngineCfg) (fof : Option Bool) (fouDefault : Bool)
    (env : VarEnv) (cache : Cache) (xs : List Value) (o : TOpts) :
    Except TErr (List Value) × Cache × Nat :=
  match xs with
  | [] => (.ok [], cache, 0)
  | x :: rest =>
    match templateV cfg fof fouDefault env cache x o with
    | (.ok y, c2, n1) =>
      match templateList cfg fof fouDefault env c2 rest o with
      | (.ok ys, c3, n2) => (.ok (y :: ys), c3, n1 + n2)
      | (.error e, c3, n2) => (.error e, c3, n1 + n2)
    | (.error e, c2, n1) => (.error e, c2, n1)
termination_by (sizeOf xs, 2)

/-- The loop over mapping keys: values under keys in `static_vars` are
copied verbatim, all other values are templated. -/
def templateDict (cfg : EngineCfg) (fof : Option Bool) (fouDefault : Bool)
    (env : VarEnv) (cache : Cache) (entries : List (Value × Value)) (o : TOpts)
    (staticVars : List PStr) : Except TErr (List (Value × Value)) × Cache × Nat :=
  match entries with
  | [] => (.ok [], cache, 0)
  | (k, v) :: rest =>
    if keyInStatic staticVars k then
      match templateDict cfg fof fouDefault env cache rest o staticVars with
      | (.ok ys, c2, n) => (.ok ((k, v) :: ys), c2, n)
      | (.error e, c2, n) => (.error e, c2, n)
    else
      match templateV cfg fof fouDefault env cache v o with
      | (.ok y, c2, n1) =>
        match templateDict cfg fof fouDefault env c2 rest o staticVars with
        | (.ok ys, c3, n2) => (.ok ((k, y) :: ys), c3, n1 + n2)
        | (.error e, c3, n2) => (.error e, c3, n1 + n2)
      | (.error e, c2, n1) => (.error e, c2, n1)
termination_by (sizeOf entries, 2)
end

/-- `Templar.set_available_variables`: asserts the argument is a mapping
(`AssertionError`, the spec's InvalidArgument kind, leaves everything
unchanged), then replaces the variable environment and clears the result
cache. -/
def set_available_variables (varsArg : Value) (env : VarEnv) (cache : Cache) :
    Except TErr Unit × VarEnv × Cache :=
  match varsArg with
  | .vdict entries => (.ok (), entries, [])
  | _ => (.error .invalidArgument, env, cache)

/-!
## Final rendering of expression results (`Templar._finalize`)

`_finalize` is installed as the Jinja2 environment's `finalize` hook
(`Templar.__init__`) and into the template globals (`_do_template`); the
engine applies it to the value of every output expression before
converting it to text and concatenating the stream.  That application is
modelled from the engine's interface by `renderSegs` below.
-/

/-- `Templar._finalize`: `thing if thing is not None else ''`. -/
def finalizeV : Value → Value
  | .vnone => .vstr []
  | v => v

/-- Partial model of Python `repr()` on scalar values (external stdlib):
strings in single quotes (without escaping); nested containers are not
part of this partial model. -/
def pyReprAtom : Value → PStr
  | .vstr s => squo :: s ++ [squo]
  | .vunsafeText s => squo :: s ++ [squo]
  | .vint n => chs (toString n)
  | .vbool b => reprBool b
  | .vnone => chs "None"
  | _ => []

/-- Comma-separated `repr`s of a sequence of scalars. -/
def pyReprSeq (xs : List Value) : PStr :=
  List.intercalate [',', ' '] (xs.map pyReprAtom)

/-- Comma-separated `repr(k): repr(v)` pairs over scalars. -/
def pyReprEntries (entries : List (Value × Value)) : PStr :=
  List.intercalate [',', ' ']
    (entries.map (fun kv => pyReprAtom kv.1 ++ [':', ' '] ++ pyReprAtom kv.2))

/-- Partial model of Python `str()` on values (external stdlib): the
textual forms needed by the concrete engine instances below (scalars, and
one level of container nesting). -/
def pyToStr : Value → PStr
  | .vstr s => s
  | .vunsafeText s => s
  | .vlist xs => '[' :: pyReprSeq xs ++ [']']
  | .vtuple xs => '(' :: pyReprSeq xs ++ [')']
  | .vset xs => '{' :: pyReprSeq xs ++ ['}']
  | .vdict entries => '{' :: pyReprEntries entries ++ ['}']
  | v => pyReprAtom v

/-- One segment of a compiled template: literal text, or an output
expression (here a variable reference resolved in the environment). -/
inductive Seg where
  | lit (t : PStr)
  | exprSeg (n : PStr)

/-- Modelled from the engine interface: Jinja2's render concatenates, for
each segment, the literal text or `str(finalize(value))` of the output
expression's value; an unresolvable name is an undefined-name error. -/
def renderSegs (env : VarEnv) : List Seg → Except TErr PStr
  | [] => .ok []
  | .lit t :: rest =>
    match renderSegs env rest with
    | .ok out => .ok (t ++ out)
    | .error e => .error e
  | .exprSeg n :: rest =>
    match lookupName n env with
    | some v =>
      match renderSegs env rest with
      | .ok out => .ok (pyToStr (finalizeV v) ++ out)
      | .error e => .error e
    | none => .error .undefinedVar

/-!
## Concrete engine instances

Concrete instantiations of the external collaborators, used by the
closed witnesses and counterexamples: a renderer that resolves exactly
the single-variable payloads (per the engine interface: a defined name
renders as `str(value)`, an undefined one raises the undefined-name
error), and a parser defined on the literal strings those renders
produce. -/

/-- A two-entry dict value and its `str()` form. -/
def vdictAB : Value := .vdict [(.vstr (chs "a"), .vstr (chs "b"))]

/-- `str({'a': 'b'})`. -/
def dictABRepr : PStr := pyToStr vdictAB

/-- `str([1])`. -/
def listOneRepr : PStr := pyToStr (.vlist [.vint 1])

/-- Concrete render function: resolves single-variable payloads against the
environment, fails with the undefined-name error otherwise. -/
def render0 (s : PStr) (env : VarEnv) (_ : Ov) (_ : List (PStr × Lit)) :
    Except RendErr (PStr × Bool) :=
  match singleVar s with
  | some n =>
    match lookupName n env with
    | some v => .ok (pyToStr v, false)
    | none => .error .undefinedError
  | none => .error .undefinedError

/-- Concrete parse function (`ast.parse`, external): defined on the literal
strings produced by `render0`. -/
def parse0 (s : PStr) : Except SynErr PyAst :=
  if s = dictABRepr then
    .ok (.expression (.dictL [.strL (chs "a")] [.strL (chs "b")]))
  else if s = listOneRepr then
    .ok (.expression (.listL [.num 1]))
  else .error ⟨chs "invalid syntax"⟩

/-- The concrete engine used by witnesses and counterexamples. -/
def cfg0 : EngineCfg :=
  { fromString := fun _ _ _ => .ok ()
    renderStr := render0
    escapeBs := id
    parseEval := parse0 }

/-- An engine whose render raises `TemplatesFilterError` (a filter failing
during the render), used to exercise the filter-error handler. -/
def cfgF : EngineCfg :=
  { fromString := fun _ _ _ => .ok ()
    renderStr := fun _ _ _ _ => .error .filterError
    escapeBs := id
    parseEval := fun _ => .error ⟨chs "invalid syntax"⟩ }

/-- A payload wrapped in variable delimiters. -/
def braced (s : String) : PStr := ['{', '{'] ++ s.data ++ ['}', '}']

/-- The environment used by the concrete scenarios. -/
def env0 : VarEnv :=
  [(.vstr (chs "foo"), .vstr (chs "bar")),
   (.vstr (chs "num"), .vint 1),
   (.vstr (chs "var_true"), .vbool true),
   (.vstr (chs "var_false"), .vbool false),
   (.vstr (chs "var_dict"), vdictAB),
   (.vstr (chs "var_list"), .vlist [.vint 1]),
   (.vstr (chs "var_null"), .vnone),
   (.vstr (chs "d"), vdictAB)]

/-!
## Claim development
-/

/-- A builtin name not in the callable whitelist. -/
def isBadBuiltin (id : PStr) : Bool :=
  isBuiltinName id && !(DEFAULT_CALLABLE_WHITELIST.contains id)

mutual
/-- Spec-side predicate for C1: the tree contains a node whose kind is
outside the claim's whitelist {literal, container-literal, name-load,
binary arithmetic (+, −, ×, ÷), unary, comparison, function-call}:
attribute access, subscription, or a non-arithmetic binary operator. -/
def containsUnsafeKind : PyAst → Bool
  | .expression b => containsUnsafeKind b
  | .num _ => false
  | .strL _ => false
  | .nameC _ => false
  | .name _ => false
  | .binop op l r => !(isSafeBOp op) || containsUnsafeKind l || containsUnsafeKind r
  | .unaryop _ x => containsUnsafeKind x
  | .compare l _ rs => containsUnsafeKind l || containsUnsafeKindList rs
  | .call f args => containsUnsafeKind f || containsUnsafeKindList args
  | .listL es => containsUnsafeKindList es
  | .tupleL es => containsUnsafeKindList es
  | .setL es => containsUnsafeKindList es
  | .dictL ks vs => containsUnsafeKindList ks || containsUnsafeKindList vs
  | .attribute _ _ => true
  | .subscript _ _ => true

def containsUnsafeKindList : List PyAst → Bool
  | [] => false
  | x :: xs => containsUnsafeKind x || containsUnsafeKindList xs
end

mutual
/-- The tree contains a bare identifier naming a builtin that is not in
the call whitelist. -/
def containsBadName : PyAst → Bool
  | .expression b => containsBadName b
  | .num _ => false
  | .strL _ => false
  | .nameC _ => false
  | .name id => isBadBuiltin id
  | .binop _ l r => containsBadName l || containsBadName r
  | .unaryop _ x => containsBadName x
  | .compare l _ rs => containsBadName l || containsBadNameList rs
  | .call f args => containsBadName f || containsBadNameList args
  | .listL es => containsBadNameList es
  | .tupleL es => containsBadNameList es
  | .setL es => containsBadNameList es
  | .dictL ks vs => containsBadNameList ks || containsBadNameList vs
  | .attribute v _ => containsBadName v
  | .subscript v i => containsBadName v || containsBadName i

def containsBadNameList : List PyAst → Bool
  | [] => false
  | x :: xs => containsBadName x || containsBadNameList xs
end

mutual
/-- Spec-side predicate for C1: some call's argument subtree contains a
bare identifier naming a builtin not in the call whitelist. -/
def hasBadCallArg : PyAst → Bool
  | .expression b => hasBadCallArg b
  | .num _ => false
  | .strL _ => false
  | .nameC _ => false
  | .name _ => false
  | .binop _ l r => hasBadCallArg l || hasBadCallArg r
  | .unaryop _ x => hasBadCallArg x
  | .compare l _ rs => hasBadCallArg l || hasBadCallArgList rs
  | .call f args => containsBadNameList args || hasBadCallArg f || hasBadCallArgList args
  | .listL es => hasBadCallArgList es
  | .tupleL es => hasBadCallArgList es
  | .setL es => hasBadCallArgList es
  | .dictL ks vs => hasBadCallArgList ks || hasBadCallArgList vs
  | .attribute v _ => hasBadCallArg v
  | .subscript v i => hasBadCallArg v || hasBadCallArg i

def hasBadCallArgList : List PyAst → Bool
  | [] => false
  | x :: xs => hasBadCallArg x || hasBadCallArgList xs
end

/-- A failing left component fails the whole visitor sequence. -/
theorem seq_error_left {E : Type} {a : Except E Unit} {f : Unit → Except E Unit}
    (h : ∃ e, a = .error e) : ∃ e, (a >>= f) = .error e := by
  obtain ⟨e, he⟩ := h
  exact ⟨e, by rw [he]; rfl⟩

/-- A failing right component fails the whole visitor sequence. -/
theorem seq_error_any {E : Type} {a : Except E Unit} {f : Unit → Except E Unit}
    (h : ∃ e, f () = .error e) : ∃ e, (a >>= f) = .error e := by
  cases a with
  | error e => exact ⟨e, rfl⟩
  | ok u =>
    cases u
    obtain ⟨e, he⟩ := h
    exact ⟨e, he⟩

mutual
/-- Any tree containing a node kind outside the whitelist is rejected by
the visitor, whatever the `inside_call` flag. -/
theorem unsafeKind_rejected : ∀ (t : PyAst) (ic : Bool),
    containsUnsafeKind t = true → ∃ e, cnvCheck t ic = .error e
  | .expression b, ic, h => by
    simp only [containsUnsafeKind] at h
    simpa [cnvCheck] using unsafeKind_rejected b ic h
  | .num _, _, h => by simp [containsUnsafeKind] at h
  | .strL _, _, h => by simp [containsUnsafeKind] at h
  | .nameC _, _, h => by simp [containsUnsafeKind] at h
  | .name _, _, h => by simp [containsUnsafeKind] at h
  | .binop op l r, ic, h => by
    simp only [containsUnsafeKind, Bool.or_eq_true, Bool.not_eq_true'] at h
    show ∃ e, (cnvCheck l ic >>= fun _ =>
      if isSafeBOp op then cnvCheck r ic else .error .invalidExpression) = .error e
    rcases h with (h | h) | h
    · exact seq_error_any ⟨.invalidExpression, by simp [h]⟩
    · exact seq_error_left (unsafeKind_rejected l ic h)
    · refine seq_error_any ?_
      cases hs : isSafeBOp op with
      | true => simpa [hs] using unsafeKind_rejected r ic h
      | false => exact ⟨.invalidExpression, by simp [hs]⟩
  | .unaryop _ _, _, _ => ⟨.invalidExpression, rfl⟩
  | .compare l ops rs, ic, h => by
    simp only [containsUnsafeKind, Bool.or_eq_true] at h
    show ∃ e, (cnvCheck l ic >>= fun _ =>
      if ops.isEmpty then cnvCheckList rs ic else .error .invalidExpression) = .error e
    rcases h with h | h
    · exact seq_error_left (unsafeKind_rejected l ic h)
    · refine seq_error_any ?_
      cases he : ops.isEmpty with
      | true => simpa [he] using unsafeKindList_rejected rs ic h
      | false => exact ⟨.invalidExpression, by simp [he]⟩
  | .call f args, _, h => by
    simp only [containsUnsafeKind, Bool.or_eq_true] at h
    show ∃ e, (cnvCheck f true >>= fun _ => cnvCheckList args true) = .error e
    rcases h with h | h
    · exact seq_error_left (unsafeKind_rejected f true h)
    · exact seq_error_any (unsafeKindList_rejected args true h)
  | .listL es, ic, h => by
    simp only [containsUnsafeKind] at h
    simpa [cnvCheck] using unsafeKindList_rejected es ic h
  | .tupleL es, ic, h => by
    simp only [containsUnsafeKind] at h
    simpa [cnvCheck] using unsafeKindList_rejected es ic h
  | .setL es, ic, h => by
    simp only [containsUnsafeKind] at h
    simpa [cnvCheck] using unsafeKindList_rejected es ic h
  | .dictL ks vs, ic, h => by
    simp only [containsUnsafeKind, Bool.or_eq_true] at h
    show ∃ e, (cnvCheckList ks ic >>= fun _ => cnvCheckList vs ic) = .error e
    rcases h with h | h
    · exact seq_error_left (unsafeKindList_rejected ks ic h)
    · exact seq_error_any (unsafeKindList_rejected vs ic h)
  | .attribute _ _, _, _ => ⟨.invalidExpression, rfl⟩
  | .subscript _ _, _, _ => ⟨.invalidExpression, rfl⟩

theorem unsafeKindList_rejected : ∀ (l : List PyAst) (ic : Bool),
    containsUnsafeKindList l = true → ∃ e, cnvCheckList l ic = .error e
  | [], _, h => by simp [containsUnsafeKindList] at h
  | x :: xs, ic, h => by
    simp only [containsUnsafeKindList, Bool.or_eq_true] at h
    show ∃ e, (cnvCheck x ic >>= fun _ => cnvCheckList xs ic) = .error e
    rcases h with h | h
    · exact seq_error_left (unsafeKind_rejected x ic h)
    · exact seq_error_any (unsafeKindList_rejected xs ic h)
end

mutual
/-- Inside a call (the `inside_call` flag set), any subtree containing a
bare builtin identifier not in the call whitelist is rejected. -/
theorem badName_rejected : ∀ t : PyAst,
    containsBadName t = true → ∃ e, cnvCheck t true = .error e
  | .expression b, h => by
    simp only [containsBadName] at h
    simpa [cnvCheck] using badName_rejected b h
  | .num _, h => by simp [containsBadName] at h
  | .strL _, h => by simp [containsBadName] at h
  | .nameC _, h => by simp [containsBadName] at h
  | .name id, h => by
    simp only [containsBadName] at h
    exact ⟨.invalidFunction, by simp [cnvCheck, isBadBuiltin] at h ⊢; simp [h]⟩
  | .binop op l r, h => by
    simp only [containsBadName, Bool.or_eq_true] at h
    show ∃ e, (cnvCheck l true >>= fun _ =>
      if isSafeBOp op then cnvCheck r true else .error .invalidExpression) = .error e
    rcases h with h | h
    · exact seq_error_left (badName_rejected l h)
    · refine seq_error_any ?_
      cases hs : isSafeBOp op with
      | true => simpa [hs] using badName_rejected r h
      | false => exact ⟨.invalidExpression, by simp [hs]⟩
  | .unaryop _ _, _ => ⟨.invalidExpression, rfl⟩
  | .compare l ops rs, h => by
    simp only [containsBadName, Bool.or_eq_true] at h
    show ∃ e, (cnvCheck l true >>= fun _ =>
      if ops.isEmpty then cnvCheckList rs true else .error .invalidExpression) = .error e
    rcases h with h | h
    · exact seq_error_left (badName_rejected l h)
    · refine seq_error_any ?_
      cases he : ops.isEmpty with
      | true => simpa [he] using badNameList_rejected rs h
      | false => exact ⟨.invalidExpression, by simp [he]⟩
  | .call f args, h => by
    simp only [containsBadName, Bool.or_eq_true] at h
    show ∃ e, (cnvCheck f true >>= fun _ => cnvCheckList args true) = .error e
    rcases h with h | h
    · exact seq_error_left (badName_rejected f h)
    · exact seq_error_any (badNameList_rejected args h)
  | .listL es, h => by
    simp only [containsBadName] at h
    simpa [cnvCheck] using badNameList_rejected es h
  | .tupleL es, h => by
    simp only [containsBadName] at h
    simpa [cnvCheck] using badNameList_rejected es h
  | .setL es, h => by
    simp only [containsBadName] at h
    simpa [cnvCheck] using badNameList_rejected es h
  | .dictL ks vs, h => by
    simp only [containsBadName, Bool.or_eq_true] at h
    show ∃ e, (cnvCheckList ks true >>= fun _ => cnvCheckList vs true) = .error e
    rcases h with h | h
    · exact seq_error_left (badNameList_rejected ks h)
    · exact seq_error_any (badNameList_rejected vs h)
  | .attribute _ _, _ => ⟨.invalidExpression, rfl⟩
  | .subscript _ _, _ => ⟨.invalidExpression, rfl⟩

theorem badNameList_rejected : ∀ l : List PyAst,
    containsBadNameList l = true → ∃ e, cnvCheckList l true = .error e
  | [], h => by simp [containsBadNameList] at h
  | x :: xs, h => by
    simp only [containsBadNameList, Bool.or_eq_true] at h
    show ∃ e, (cnvCheck x true >>= fun _ => cnvCheckList xs true) = .error e
    rcases h with h | h
    · exact seq_error_left (badName_rejected x h)
    · exact seq_error_any (badNameList_rejected xs h)
end

mutual
/-- Any tree in which some call argument subtree contains a bare builtin
identifier not in the call whitelist is rejected by the visitor. -/
theorem badCallArg_rejected : ∀ (t : PyAst) (ic : Bool),
    hasBadCallArg t = true → ∃ e, cnvCheck t ic = .error e
  | .expression b, ic, h => by
    simp only [hasBadCallArg] at h
    simpa [cnvCheck] using badCallArg_rejected b ic h
  | .num _, _, h => by simp [hasBadCallArg] at h
  | .strL _, _, h => by simp [hasBadCallArg] at h
  | .nameC _, _, h => by simp [hasBadCallArg] at h
  | .name _, _, h => by simp [hasBadCallArg] at h
  | .binop op l r, ic, h => by
    simp only [hasBadCallArg, Bool.or_eq_true] at h
    show ∃ e, (cnvCheck l ic >>= fun _ =>
      if isSafeBOp op then cnvCheck r ic else .error .invalidExpression) = .error e
    rcases h with h | h
    · exact seq_error_left (badCallArg_rejected l ic h)
    · refine seq_error_any ?_
      cases hs : isSafeBOp op with
      | true => simpa [hs] using badCallArg_rejected r ic h
      | false => exact ⟨.invalidExpression, by simp [hs]⟩
  | .unaryop _ _, _, _ => ⟨.invalidExpression, rfl⟩
  | .compare l ops rs, ic, h => by
    simp only [hasBadCallArg, Bool.or_eq_true] at h
    show ∃ e, (cnvCheck l ic >>= fun _ =>
      if ops.isEmpty then cnvCheckList rs ic else .error .invalidExpression) = .error e
    rcases h with h | h
    · exact seq_error_left (badCallArg_rejected l ic h)
    · refine seq_error_any ?_
      cases he : ops.isEmpty with
      | true => simpa [he] using badCallArgList_rejected rs ic h
      | false => exact ⟨.invalidExpression, by simp [he]⟩
  | .call f args, _, h => by
    simp only [hasBadCallArg, Bool.or_eq_true] at h
    show ∃ e, (cnvCheck f true >>= fun _ => cnvCheckList args true) = .error e
    rcases h with (h | h) | h
    · exact seq_error_any (badNameList_rejected args h)
    · exact seq_error_left (badCallArg_rejected f true h)
    · exact seq_error_any (badCallArgList_rejected args true h)
  | .listL es, ic, h => by
    simp only [hasBadCallArg] at h
    simpa [cnvCheck] using badCallArgList_rejected es ic h
  | .tupleL es, ic, h => by
    simp only [hasBadCallArg] at h
    simpa [cnvCheck] using badCallArgList_rejected es ic h
  | .setL es, ic, h => by
    simp only [hasBadCallArg] at h
    simpa [cnvCheck] using badCallArgList_rejected es ic h
  | .dictL ks vs, ic, h => by
    simp only [hasBadCallArg, Bool.or_eq_true] at h
    show ∃ e, (cnvCheckList ks ic >>= fun _ => cnvCheckList vs ic) = .error e
    rcases h with h | h
    · exact seq_error_left (badCallArgList_rejected ks ic h)
    · exact seq_error_any (badCallArgList_rejected vs ic h)
  | .attribute _ _, _, _ => ⟨.invalidExpression, rfl⟩
  | .subscript _ _, _, _ => ⟨.invalidExpression, rfl⟩

theorem badCallArgList_rejected : ∀ (l : List PyAst) (ic : Bool),
    hasBadCallArgList l = true → ∃ e, cnvCheckList l ic = .error e
  | [], _, h => by simp [hasBadCallArgList] at h
  | x :: xs, ic, h => by
    simp only [hasBadCallArgList, Bool.or_eq_true] at h
    show ∃ e, (cnvCheck x ic >>= fun _ => cnvCheckList xs ic) = .error e
    rcases h with h | h
    · exact seq_error_left (badCallArg_rejected x ic h)
    · exact seq_error_any (badCallArgList_rejected xs ic h)
end

/-- The string `__import__('os').system('x')`. -/
def importOsExpr : PStr :=
  chs "__import__(" ++ [squo] ++ chs "os" ++ [squo] ++ chs ").system(" ++
    [squo] ++ chs "x" ++ [squo] ++ [')']

/-- `ast.parse("__import__('os').system('x')", mode='eval')`: a call whose
function is an attribute access on the result of calling `__import__`. -/
def importOsAst : PyAst :=
  .expression (.call
    (.attribute (.call (.name (chs "__import__")) [.strL (chs "os")]) (chs "system"))
    [.strL (chs "x")])

/-- C1: for every string whose parsed expression tree contains a node kind
outside the sandbox whitelist, and for every call argument subtree
containing a bare identifier naming a builtin not in the call whitelist,
`safe_eval` rejects the expression at the static visitor pre-check (before
any evaluation) and hands the original string back unchanged; in
particular `safe_eval("__import__('os').system('x')")` is rejected by the
visitor and returns that string. -/
theorem safe_eval_rejects_nonwhitelisted :
    (∀ (expr : PStr) (t : PyAst) (env : VarEnv),
        containsUnsafeKind t = true ∨ hasBadCallArg t = true →
        cnvAccepts t false = false ∧
        safe_eval expr (.ok t) env = .strOut expr ∧
        (safe_eval_exc expr (.ok t) env).1 = .strOut expr) ∧
    cnvAccepts importOsAst false = false ∧
    safe_eval importOsExpr (.ok importOsAst) [] = .strOut importOsExpr := by
  constructor
  · intro expr t env h
    have hrej : ∃ e, cnvCheck t false = .error e := by
      rcases h with h | h
      · exact unsafeKind_rejected t false h
      · exact badCallArg_rejected t false h
    obtain ⟨e, he⟩ := hrej
    refine ⟨by simp [cnvAccepts, he], ?_, ?_⟩ <;>
      simp [safe_eval, safe_eval_exc, he]
  · exact ⟨rfl, rfl⟩

/-- Witness for C1 at concrete inputs: an attribute access (`a.b`, a node
kind outside the whitelist) and a call with the builtin `eval` as a bare
argument (`f(eval)`). -/
theorem safe_eval_rejects_nonwhitelisted_witness :
    (cnvAccepts (.expression (.attribute (.name (chs "a")) (chs "b"))) false = false ∧
      safe_eval (chs "a.b")
        (.ok (.expression (.attribute (.name (chs "a")) (chs "b")))) [] =
        .strOut (chs "a.b")) ∧
    (cnvAccepts (.expression (.call (.name (chs "f")) [.name (chs "eval")])) false = false ∧
      safe_eval (chs "f(eval)")
        (.ok (.expression (.call (.name (chs "f")) [.name (chs "eval")]))) [] =
        .strOut (chs "f(eval)")) :=
  ⟨⟨(safe_eval_rejects_nonwhitelisted.1 (chs "a.b")
      (.expression (.attribute (.name (chs "a")) (chs "b"))) [] (Or.inl rfl)).1,
    (safe_eval_rejects_nonwhitelisted.1 (chs "a.b")
      (.expression (.attribute (.name (chs "a")) (chs "b"))) [] (Or.inl rfl)).2.1⟩,
   ⟨(safe_eval_rejects_nonwhitelisted.1 (chs "f(eval)")
      (.expression (.call (.name (chs "f")) [.name (chs "eval")])) [] (Or.inr rfl)).1,
    (safe_eval_rejects_nonwhitelisted.1 (chs "f(eval)")
      (.expression (.call (.name (chs "f")) [.name (chs "eval")])) [] (Or.inr rfl)).2.1⟩⟩

/-- C7 counterexample: on a parse failure with `include_exceptions=True`,
`safe_eval` returns `(expr, None)` — the error slot is `None`, not the
syntax-error object the claim promises. -/
theorem safe_eval_syntax_error_cex :
    safe_eval_exc (chs "a b") (.error ⟨chs "invalid syntax"⟩) [] =
      (.strOut (chs "a b"), none) := rfl

/-- C7 amended: for every string that fails to parse, `safe_eval` never
raises; with `include_exceptions=False` it returns the string unchanged,
and with `include_exceptions=True` it returns the pair `(expr, None)` —
the syntax error is swallowed, not reported. -/
theorem safe_eval_syntax_error_amended :
    ∀ (expr : PStr) (err : SynErr) (env : VarEnv),
      safe_eval expr (.error err) env = .strOut expr ∧
      safe_eval_exc expr (.error err) env = (.strOut expr, none) :=
  fun _ _ _ => ⟨rfl, rfl⟩

/-- Positions found by the scan lie between the scan offset and the end of
the string, with two characters of room. -/
theorem scanToks_bounds : ∀ (cs : List Char) (i : Nat),
    ∀ x ∈ scanToks cs i, i ≤ x.1 ∧ x.1 + 2 ≤ i + cs.length := by
  intro cs i
  induction cs, i using scanToks.induct with
  | case1 c1 c2 rest i t ht ih =>
    intro x hx
    simp only [scanToks, ht] at hx
    rcases List.mem_cons.mp hx with h | h
    · subst h; simp
    · have := ih x h
      simp at this ⊢
      omega
  | case2 c1 c2 rest i ht ih =>
    intro x hx
    simp only [scanToks, ht] at hx
    have := ih x hx
    simp at this ⊢
    omega
  | case3 cs i h =>
    intro x hx
    simp only [scanToks] at hx
    simp at hx

/-- Scan positions are strictly increasing, with a gap of at least two
between successive matches. -/
theorem scanToks_pairwise : ∀ (cs : List Char) (i : Nat),
    (scanToks cs i).Pairwise (fun a b => a.1 + 2 ≤ b.1) := by
  intro cs i
  induction cs, i using scanToks.induct with
  | case1 c1 c2 rest i t ht ih =>
    simp only [scanToks, ht]
    refine List.pairwise_cons.mpr ⟨?_, ih⟩
    intro y hy
    have := (scanToks_bounds rest (i + 2) y hy).1
    simpa using this
  | case2 c1 c2 rest i ht ih =>
    simp only [scanToks, ht]
    exact ih
  | case3 cs i h =>
    simp only [scanToks]
    exact List.Pairwise.nil

/-- The characters at a scanned position are exactly the token's two
characters. -/
theorem scanToks_chars : ∀ (cs : List Char) (i : Nat),
    ∀ x ∈ scanToks cs i,
      cs[x.1 - i]? = some (tokChars x.2).1 ∧
      cs[x.1 - i + 1]? = some (tokChars x.2).2 := by
  intro cs i
  induction cs, i using scanToks.induct with
  | case1 c1 c2 rest i t ht ih =>
    intro x hx
    simp only [scanToks, ht] at hx
    rcases List.mem_cons.mp hx with h | h
    · subst h
      have hchars : c1 = (tokChars t).1 ∧ c2 = (tokChars t).2 := by
        simp only [tokOf] at ht
        split_ifs at ht with h1 h2 h3 h4 <;> (cases ht; simp_all [tokChars])
      simp [hchars.1, hchars.2]
    · have := ih x h
      have hge := (scanToks_bounds rest (i + 2) x h).1
      have e1 : x.1 - i = (x.1 - (i + 2)) + 2 := by omega
      rw [e1]
      simpa using this
  | case2 c1 c2 rest i ht ih =>
    intro x hx
    simp only [scanToks, ht] at hx
    have := ih x hx
    have hge := (scanToks_bounds (c2 :: rest) (i + 1) x hx).1
    have e1 : x.1 - i = (x.1 - (i + 1)) + 1 := by omega
    rw [e1]
    simpa using this
  | case3 cs i h =>
    intro x hx
    simp only [scanToks] at hx
    simp at hx

/-- The flat list of pair components (open and close positions). -/
def pairComps : List (Nat × Nat) → List Nat
  | [] => []
  | pr :: l => pr.1 :: pr.2 :: pairComps l

/-- Two positions at least two apart (so their two-character spans are
disjoint). -/
def Far (a b : Nat) : Prop := a + 2 ≤ b ∨ b + 2 ≤ a

theorem far_symm {a b : Nat} (h : Far a b) : Far b a := Or.symm h

/-- Invariant-carrying specification of the `_clean_data` stack machine:
with tokens pairwise two apart, stacks holding earlier open positions
below all remaining tokens, the machine emits pairs that are an open of
the matching kind strictly before their close, with all emitted positions
pairwise far apart, and every emitted position drawn from the stacks or
the tokens. -/
theorem processToks_spec (M : Nat → Tok → Prop) :
    ∀ (tks : List (Nat × Tok)) (ps bs : List Nat),
    (∀ x ∈ tks, M x.1 x.2) →
    (∀ p ∈ ps, M p Tok.varS) →
    (∀ b ∈ bs, M b Tok.blkS) →
    (∀ x ∈ ps, ∀ q ∈ tks, x + 2 ≤ q.1) →
    (∀ x ∈ bs, ∀ q ∈ tks, x + 2 ≤ q.1) →
    List.Pairwise (fun a b => b + 2 ≤ a) ps →
    List.Pairwise (fun a b => b + 2 ≤ a) bs →
    (∀ p ∈ ps, ∀ b ∈ bs, Far p b) →
    List.Pairwise (fun a b => a.1 + 2 ≤ b.1) tks →
    (∀ pr ∈ processToks tks ps bs,
        ((M pr.1 Tok.blkS ∧ M pr.2 Tok.blkE) ∨ (M pr.1 Tok.varS ∧ M pr.2 Tok.varE)) ∧
        pr.1 + 2 ≤ pr.2) ∧
    List.Pairwise Far (pairComps (processToks tks ps bs)) ∧
    (∀ x ∈ pairComps (processToks tks ps bs),
        x ∈ ps ∨ x ∈ bs ∨ ∃ t, (x, t) ∈ tks) := by
  intro tks ps bs
  induction tks, ps, bs using processToks.induct with
  | case1 ps bs =>
    intro _ _ _ _ _ _ _ _ _
    simp [processToks, pairComps]
  | case2 i rest ps bs ih =>
    intro hM hPs hBs h1p h1b h2p h2b h3 hPW
    obtain ⟨hgap, hPWt⟩ := List.pairwise_cons.mp hPW
    have hM' : ∀ x ∈ rest, M x.1 x.2 := fun x hx => hM x (List.mem_cons_of_mem _ hx)
    have hPs' : ∀ p ∈ i :: ps, M p Tok.varS := by
      intro p hp
      rcases List.mem_cons.mp hp with rfl | hp
      · exact hM (p, Tok.varS) (List.mem_cons_self _ _)
      · exact hPs p hp
    have h1p' : ∀ x ∈ i :: ps, ∀ q ∈ rest, x + 2 ≤ q.1 := by
      intro x hx q hq
      rcases List.mem_cons.mp hx with rfl | hx
      · exact hgap q hq
      · exact h1p x hx q (List.mem_cons_of_mem _ hq)
    have h1b' : ∀ x ∈ bs, ∀ q ∈ rest, x + 2 ≤ q.1 :=
      fun x hx q hq => h1b x hx q (List.mem_cons_of_mem _ hq)
    have h2p' : List.Pairwise (fun a b => b + 2 ≤ a) (i :: ps) := by
      refine List.pairwise_cons.mpr ⟨?_, h2p⟩
      intro p hp
      exact h1p p hp (i, Tok.varS) (List.mem_cons_self _ _)
    have h3' : ∀ p ∈ i :: ps, ∀ b ∈ bs, Far p b := by
      intro p hp b hb
      rcases List.mem_cons.mp hp with rfl | hp
      · exact Or.inr (h1b b hb (p, Tok.varS) (List.mem_cons_self _ _))
      · exact h3 p hp b hb
    obtain ⟨c1, c2, c3⟩ := ih hM' hPs' hBs h1p' h1b' h2p' h2b h3' hPWt
    rw [processToks]
    refine ⟨c1, c2, ?_⟩
    intro x hx
    rcases c3 x hx with hx' | hx' | ⟨t, hx'⟩
    · rcases List.mem_cons.mp hx' with rfl | hx''
      · exact Or.inr (Or.inr ⟨Tok.varS, (List.mem_cons_self _ _)⟩)
      · exact Or.inl hx''
    · exact Or.inr (Or.inl hx')
    · exact Or.inr (Or.inr ⟨t, List.mem_cons_of_mem _ hx'⟩)
  | case3 i rest ps bs ih =>
    intro hM hPs hBs h1p h1b h2p h2b h3 hPW
    obtain ⟨hgap, hPWt⟩ := List.pairwise_cons.mp hPW
    have hM' : ∀ x ∈ rest, M x.1 x.2 := fun x hx => hM x (List.mem_cons_of_mem _ hx)
    have hBs' : ∀ b ∈ i :: bs, M b Tok.blkS := by
      intro b hb
      rcases List.mem_cons.mp hb with rfl | hb
      · exact hM (b, Tok.blkS) (List.mem_cons_self _ _)
      · exact hBs b hb
    have h1b' : ∀ x ∈ i :: bs, ∀ q ∈ rest, x + 2 ≤ q.1 := by
      intro x hx q hq
      rcases List.mem_cons.mp hx with rfl | hx
      · exact hgap q hq
      · exact h1b x hx q (List.mem_cons_of_mem _ hq)
    have h1p' : ∀ x ∈ ps, ∀ q ∈ rest, x + 2 ≤ q.1 :=
      fun x hx q hq => h1p x hx q (List.mem_cons_of_mem _ hq)
    have h2b' : List.Pairwise (fun a b => b + 2 ≤ a) (i :: bs) := by
      refine List.pairwise_cons.mpr ⟨?_, h2b⟩
      intro b hb
      exact h1b b hb (i, Tok.blkS) (List.mem_cons_self _ _)
    have h3' : ∀ p ∈ ps, ∀ b ∈ i :: bs, Far p b := by
      intro p hp b hb
      rcases List.mem_cons.mp hb with rfl | hb
      · exact Or.inl (h1p p hp (b, Tok.blkS) (List.mem_cons_self _ _))
      · exact h3 p hp b hb
    obtain ⟨c1, c2, c3⟩ := ih hM' hPs hBs' h1p' h1b' h2p h2b' h3' hPWt
    rw [processToks]
    refine ⟨c1, c2, ?_⟩
    intro x hx
    rcases c3 x hx with hx' | hx' | ⟨t, hx'⟩
    · exact Or.inl hx'
    · rcases List.mem_cons.mp hx' with rfl | hx''
      · exact Or.inr (Or.inr ⟨Tok.blkS, (List.mem_cons_self _ _)⟩)
      · exact Or.inr (Or.inl hx'')
    · exact Or.inr (Or.inr ⟨t, List.mem_cons_of_mem _ hx'⟩)
  | case4 i rest ps b bs ih =>
    intro hM hPs hBs h1p h1b h2p h2b h3 hPW
    obtain ⟨hgap, hPWt⟩ := List.pairwise_cons.mp hPW
    obtain ⟨h2bhead, h2bt⟩ := List.pairwise_cons.mp h2b
    have hM' : ∀ x ∈ rest, M x.1 x.2 := fun x hx => hM x (List.mem_cons_of_mem _ hx)
    have hBs' : ∀ x ∈ bs, M x Tok.blkS := fun x hx => hBs x (List.mem_cons_of_mem _ hx)
    have h1p' : ∀ x ∈ ps, ∀ q ∈ rest, x + 2 ≤ q.1 :=
      fun x hx q hq => h1p x hx q (List.mem_cons_of_mem _ hq)
    have h1b' : ∀ x ∈ bs, ∀ q ∈ rest, x + 2 ≤ q.1 :=
      fun x hx q hq => h1b x (List.mem_cons_of_mem _ hx) q (List.mem_cons_of_mem _ hq)
    have h3' : ∀ p ∈ ps, ∀ x ∈ bs, Far p x :=
      fun p hp x hx => h3 p hp x (List.mem_cons_of_mem _ hx)
    obtain ⟨c1, c2, c3⟩ := ih hM' hPs hBs' h1p' h1b' h2p h2bt h3' hPWt
    have hMb : M b Tok.blkS := hBs b (List.mem_cons_self _ _)
    have hMi : M i Tok.blkE := hM (i, Tok.blkE) (List.mem_cons_self _ _)
    have horder : b + 2 ≤ i :=
      h1b b (List.mem_cons_self _ _) (i, Tok.blkE) (List.mem_cons_self _ _)
    have hFarRec : ∀ x ∈ pairComps (processToks rest ps bs),
        Far b x ∧ Far i x := by
      intro x hx
      rcases c3 x hx with hx' | hx' | ⟨t, hx'⟩
      · constructor
        · exact far_symm (h3 x hx' b (List.mem_cons_self _ _))
        · exact Or.inr (h1p x hx' (i, Tok.blkE) (List.mem_cons_self _ _))
      · constructor
        · exact Or.inr (h2bhead x hx')
        · exact Or.inr (h1b x (List.mem_cons_of_mem _ hx') (i, Tok.blkE) (List.mem_cons_self _ _))
      · constructor
        · exact Or.inl (h1b b (List.mem_cons_self _ _) (x, t) (List.mem_cons_of_mem _ hx'))
        · exact Or.inl (hgap (x, t) hx')
    rw [processToks]
    refine ⟨?_, ?_, ?_⟩
    · intro pr hpr
      rcases List.mem_cons.mp hpr with rfl | hpr
      · exact ⟨Or.inl ⟨hMb, hMi⟩, horder⟩
      · exact c1 pr hpr
    · show List.Pairwise Far (b :: i :: pairComps (processToks rest ps bs))
      refine List.pairwise_cons.mpr ⟨?_, List.pairwise_cons.mpr ⟨?_, c2⟩⟩
      · intro y hy
        rcases List.mem_cons.mp hy with rfl | hy
        · exact Or.inl horder
        · exact (hFarRec y hy).1
      · intro y hy
        exact (hFarRec y hy).2
    · intro x hx
      show x ∈ ps ∨ x ∈ b :: bs ∨ ∃ t, (x, t) ∈ (i, Tok.blkE) :: rest
      rcases List.mem_cons.mp hx with rfl | hx
      · exact Or.inr (Or.inl (List.mem_cons_self _ _))
      · rcases List.mem_cons.mp hx with rfl | hx
        · exact Or.inr (Or.inr ⟨Tok.blkE, (List.mem_cons_self _ _)⟩)
        · rcases c3 x hx with hx' | hx' | ⟨t, hx'⟩
          · exact Or.inl hx'
          · exact Or.inr (Or.inl (List.mem_cons_of_mem _ hx'))
          · exact Or.inr (Or.inr ⟨t, List.mem_cons_of_mem _ hx'⟩)
  | case5 i rest ps ih =>
    intro hM hPs hBs h1p h1b h2p h2b h3 hPW
    obtain ⟨hgap, hPWt⟩ := List.pairwise_cons.mp hPW
    have hM' : ∀ x ∈ rest, M x.1 x.2 := fun x hx => hM x (List.mem_cons_of_mem _ hx)
    have h1p' : ∀ x ∈ ps, ∀ q ∈ rest, x + 2 ≤ q.1 :=
      fun x hx q hq => h1p x hx q (List.mem_cons_of_mem _ hq)
    have h1b' : ∀ x ∈ ([] : List Nat), ∀ q ∈ rest, x + 2 ≤ q.1 := by
      intro x hx; simp at hx
    obtain ⟨c1, c2, c3⟩ := ih hM' hPs hBs h1p' h1b' h2p h2b h3 hPWt
    rw [processToks]
    refine ⟨c1, c2, ?_⟩
    intro x hx
    rcases c3 x hx with hx' | hx' | ⟨t, hx'⟩
    · exact Or.inl hx'
    · exact Or.inr (Or.inl hx')
    · exact Or.inr (Or.inr ⟨t, List.mem_cons_of_mem _ hx'⟩)
  | case6 i rest p ps bs ih =>
    intro hM hPs hBs h1p h1b h2p h2b h3 hPW
    obtain ⟨hgap, hPWt⟩ := List.pairwise_cons.mp hPW
    obtain ⟨h2phead, h2pt⟩ := List.pairwise_cons.mp h2p
    have hM' : ∀ x ∈ rest, M x.1 x.2 := fun x hx => hM x (List.mem_cons_of_mem _ hx)
    have hPs' : ∀ x ∈ ps, M x Tok.varS := fun x hx => hPs x (List.mem_cons_of_mem _ hx)
    have h1p' : ∀ x ∈ ps, ∀ q ∈ rest, x + 2 ≤ q.1 :=
      fun x hx q hq => h1p x (List.mem_cons_of_mem _ hx) q (List.mem_cons_of_mem _ hq)
    have h1b' : ∀ x ∈ bs, ∀ q ∈ rest, x + 2 ≤ q.1 :=
      fun x hx q hq => h1b x hx q (List.mem_cons_of_mem _ hq)
    have h3' : ∀ x ∈ ps, ∀ y ∈ bs, Far x y :=
      fun x hx y hy => h3 x (List.mem_cons_of_mem _ hx) y hy
    obtain ⟨c1, c2, c3⟩ := ih hM' hPs' hBs h1p' h1b' h2pt h2b h3' hPWt
    have hMp : M p Tok.varS := hPs p (List.mem_cons_self _ _)
    have hMi : M i Tok.varE := hM (i, Tok.varE) (List.mem_cons_self _ _)
    have horder : p + 2 ≤ i :=
      h1p p (List.mem_cons_self _ _) (i, Tok.varE) (List.mem_cons_self _ _)
    have hFarRec : ∀ x ∈ pairComps (processToks rest ps bs),
        Far p x ∧ Far i x := by
      intro x hx
      rcases c3 x hx with hx' | hx' | ⟨t, hx'⟩
      · constructor
        · exact Or.inr (h2phead x hx')
        · exact Or.inr (h1p x (List.mem_cons_of_mem _ hx') (i, Tok.varE) (List.mem_cons_self _ _))
      · constructor
        · exact h3 p (List.mem_cons_self _ _) x hx'
        · exact Or.inr (h1b x hx' (i, Tok.varE) (List.mem_cons_self _ _))
      · constructor
        · exact Or.inl (h1p p (List.mem_cons_self _ _) (x, t) (List.mem_cons_of_mem _ hx'))
        · exact Or.inl (hgap (x, t) hx')
    rw [processToks]
    refine ⟨?_, ?_, ?_⟩
    · intro pr hpr
      rcases List.mem_cons.mp hpr with rfl | hpr
      · exact ⟨Or.inr ⟨hMp, hMi⟩, horder⟩
      · exact c1 pr hpr
    · show List.Pairwise Far (p :: i :: pairComps (processToks rest ps bs))
      refine List.pairwise_cons.mpr ⟨?_, List.pairwise_cons.mpr ⟨?_, c2⟩⟩
      · intro y hy
        rcases List.mem_cons.mp hy with rfl | hy
        · exact Or.inl horder
        · exact (hFarRec y hy).1
      · intro y hy
        exact (hFarRec y hy).2
    · intro x hx
      show x ∈ p :: ps ∨ x ∈ bs ∨ ∃ t, (x, t) ∈ (i, Tok.varE) :: rest
      rcases List.mem_cons.mp hx with rfl | hx
      · exact Or.inl (List.mem_cons_self _ _)
      · rcases List.mem_cons.mp hx with rfl | hx
        · exact Or.inr (Or.inr ⟨Tok.varE, (List.mem_cons_self _ _)⟩)
        · rcases c3 x hx with hx' | hx' | ⟨t, hx'⟩
          · exact Or.inl (List.mem_cons_of_mem _ hx')
          · exact Or.inr (Or.inl hx')
          · exact Or.inr (Or.inr ⟨t, List.mem_cons_of_mem _ hx'⟩)
  | case7 i rest bs ih =>
    intro hM hPs hBs h1p h1b h2p h2b h3 hPW
    obtain ⟨hgap, hPWt⟩ := List.pairwise_cons.mp hPW
    have hM' : ∀ x ∈ rest, M x.1 x.2 := fun x hx => hM x (List.mem_cons_of_mem _ hx)
    have h1p' : ∀ x ∈ ([] : List Nat), ∀ q ∈ rest, x + 2 ≤ q.1 := by
      intro x hx; simp at hx
    have h1b' : ∀ x ∈ bs, ∀ q ∈ rest, x + 2 ≤ q.1 :=
      fun x hx q hq => h1b x hx q (List.mem_cons_of_mem _ hq)
    obtain ⟨c1, c2, c3⟩ := ih hM' hPs hBs h1p' h1b' h2p h2b h3 hPWt
    rw [processToks]
    refine ⟨c1, c2, ?_⟩
    intro x hx
    rcases c3 x hx with hx' | hx' | ⟨t, hx'⟩
    · exact Or.inl hx'
    · exact Or.inr (Or.inl hx')
    · exact Or.inr (Or.inr ⟨t, List.mem_cons_of_mem _ hx'⟩)

/-- Overwriting pairs preserves the length. -/
theorem foldl_applyPair_length : ∀ (prs : List (Nat × Nat)) (l : List Char),
    (prs.foldl applyPair l).length = l.length
  | [], _ => rfl
  | pr :: rest, l => by
    rw [List.foldl_cons, foldl_applyPair_length rest]
    simp [applyPair]

/-- A position outside every rewritten span keeps its original character. -/
theorem foldl_applyPair_untouched : ∀ (prs : List (Nat × Nat)) (l : List Char) (x : Nat),
    (∀ pr ∈ prs, x ≠ pr.1 ∧ x ≠ pr.1 + 1 ∧ x ≠ pr.2 ∧ x ≠ pr.2 + 1) →
    (prs.foldl applyPair l)[x]? = l[x]?
  | [], _, _, _ => rfl
  | pr :: rest, l, x, h => by
    obtain ⟨hx1, hx2, hx3, hx4⟩ := h pr (List.mem_cons_self _ _)
    rw [List.foldl_cons,
      foldl_applyPair_untouched rest _ x (fun q hq => h q (List.mem_cons_of_mem _ hq))]
    simp [applyPair, List.getElem?_set_ne (Ne.symm hx1), List.getElem?_set_ne (Ne.symm hx2),
      List.getElem?_set_ne (Ne.symm hx3), List.getElem?_set_ne (Ne.symm hx4)]

/-- One rewrite writes the comment-start characters at the open position
and the comment-end characters at the close position. -/
theorem applyPair_chars (l : List Char) (o c : Nat) (h1 : o + 2 ≤ c)
    (h2 : c + 2 ≤ l.length) :
    (applyPair l (o, c))[o]? = some '{' ∧ (applyPair l (o, c))[o + 1]? = some '#' ∧
    (applyPair l (o, c))[c]? = some '#' ∧ (applyPair l (o, c))[c + 1]? = some '}' := by
  refine ⟨?_, ?_, ?_, ?_⟩ <;> simp only [applyPair]
  · rw [List.getElem?_set_ne (show c + 1 ≠ o by omega),
      List.getElem?_set_ne (show c ≠ o by omega),
      List.getElem?_set_ne (show o + 1 ≠ o by omega),
      List.getElem?_set_self (show o < l.length by omega)]
  · rw [List.getElem?_set_ne (show c + 1 ≠ o + 1 by omega),
      List.getElem?_set_ne (show c ≠ o + 1 by omega),
      List.getElem?_set_self (show o + 1 < (l.set o '{').length by
        simp only [List.length_set]; omega)]
  · rw [List.getElem?_set_ne (show c + 1 ≠ c by omega),
      List.getElem?_set_self (show c < ((l.set o '{').set (o + 1) '#').length by
        simp only [List.length_set]; omega)]
  · rw [List.getElem?_set_self
      (show c + 1 < (((l.set o '{').set (o + 1) '#').set c '#').length by
        simp only [List.length_set]; omega)]

/-- Both components of a listed pair appear among the components. -/
theorem mem_pairComps : ∀ (prs : List (Nat × Nat)) (pr : Nat × Nat), pr ∈ prs →
    pr.1 ∈ pairComps prs ∧ pr.2 ∈ pairComps prs
  | pr0 :: rest, pr, h => by
    rcases List.mem_cons.mp h with rfl | h
    · exact ⟨List.mem_cons_self _ _, List.mem_cons_of_mem _ (List.mem_cons_self _ _)⟩
    · have := mem_pairComps rest pr h
      exact ⟨List.mem_cons_of_mem _ (List.mem_cons_of_mem _ this.1),
        List.mem_cons_of_mem _ (List.mem_cons_of_mem _ this.2)⟩

/-- With all components pairwise far apart and in bounds, every listed
pair ends up rewritten to the comment delimiters in the fold output. -/
theorem foldl_applyPair_pair_chars : ∀ (prs : List (Nat × Nat)) (l : List Char),
    List.Pairwise Far (pairComps prs) →
    (∀ pr ∈ prs, pr.1 + 2 ≤ pr.2 ∧ pr.2 + 2 ≤ l.length) →
    ∀ pr ∈ prs,
      (prs.foldl applyPair l)[pr.1]? = some '{' ∧
      (prs.foldl applyPair l)[pr.1 + 1]? = some '#' ∧
      (prs.foldl applyPair l)[pr.2]? = some '#' ∧
      (prs.foldl applyPair l)[pr.2 + 1]? = some '}'
  | [], _, _, _, _, h => by simp at h
  | pr0 :: rest, l, hPW, hb, pr, hmem => by
    have hPW1 := List.pairwise_cons.mp (show (pairComps (pr0 :: rest)).Pairwise Far from hPW)
    obtain ⟨hf1, hPW2⟩ := hPW1
    obtain ⟨hf2, hPW3⟩ := List.pairwise_cons.mp hPW2
    have hb0 := hb pr0 (List.mem_cons_self _ _)
    rcases List.mem_cons.mp hmem with rfl | hmem
    · have huntouched : ∀ x : Nat,
          (x = pr.1 ∨ x = pr.1 + 1 ∨ x = pr.2 ∨ x = pr.2 + 1) →
          (rest.foldl applyPair (applyPair l pr))[x]? = (applyPair l pr)[x]? := by
        intro x hx
        refine foldl_applyPair_untouched rest _ x ?_
        intro q hq
        have hq1 := (mem_pairComps rest q hq).1
        have hq2 := (mem_pairComps rest q hq).2
        have far11 : Far pr.1 q.1 := hf1 q.1 (List.mem_cons_of_mem _ hq1)
        have far12 : Far pr.1 q.2 := hf1 q.2 (List.mem_cons_of_mem _ hq2)
        have far21 : Far pr.2 q.1 := hf2 q.1 hq1
        have far22 : Far pr.2 q.2 := hf2 q.2 hq2
        rcases far11 with far11 | far11 <;> rcases far12 with far12 | far12 <;>
          rcases far21 with far21 | far21 <;> rcases far22 with far22 | far22 <;>
          (rcases hx with rfl | rfl | rfl | rfl) <;>
          refine ⟨by omega, by omega, by omega, by omega⟩
      have hchars := applyPair_chars l pr.1 pr.2 hb0.1 hb0.2
      rw [List.foldl_cons]
      refine ⟨?_, ?_, ?_, ?_⟩
      · rw [huntouched pr.1 (Or.inl rfl)]; exact hchars.1
      · rw [huntouched (pr.1 + 1) (Or.inr (Or.inl rfl))]; exact hchars.2.1
      · rw [huntouched pr.2 (Or.inr (Or.inr (Or.inl rfl)))]; exact hchars.2.2.1
      · rw [huntouched (pr.2 + 1) (Or.inr (Or.inr (Or.inr rfl)))]; exact hchars.2.2.2
    · rw [List.foldl_cons]
      refine foldl_applyPair_pair_chars rest (applyPair l pr0) hPW3 ?_ pr hmem
      intro q hq
      have := hb q (List.mem_cons_of_mem _ hq)
      simpa [applyPair] using this

/-- The matched pairs of a string: kinds, order, farness, and membership
among the scanned token positions. -/
theorem cleanPairs_spec (s : PStr) :
    (∀ pr ∈ cleanPairs s,
      (((pr.1, Tok.blkS) ∈ scanToks s 0 ∧ (pr.2, Tok.blkE) ∈ scanToks s 0) ∨
        ((pr.1, Tok.varS) ∈ scanToks s 0 ∧ (pr.2, Tok.varE) ∈ scanToks s 0)) ∧
      pr.1 + 2 ≤ pr.2) ∧
    List.Pairwise Far (pairComps (cleanPairs s)) ∧
    (∀ x ∈ pairComps (cleanPairs s), ∃ t, (x, t) ∈ scanToks s 0) := by
  have h := processToks_spec (fun p t => (p, t) ∈ scanToks s 0) (scanToks s 0) [] []
    (fun x hx => hx) (by simp) (by simp) (by simp) (by simp)
    List.Pairwise.nil List.Pairwise.nil (by simp) (scanToks_pairwise s 0)
  refine ⟨h.1, h.2.1, ?_⟩
  intro x hx
  rcases h.2.2 x hx with hx' | hx' | hx'
  · simp at hx'
  · simp at hx'
  · exact hx'

/-- Distinct scanned token positions are at least two apart. -/
theorem scanToks_far (s : PStr) (p q : Nat)
    (hp : ∃ t, (p, t) ∈ scanToks s 0) (hq : ∃ t, (q, t) ∈ scanToks s 0)
    (hne : p ≠ q) : Far p q := by
  obtain ⟨tp, hp⟩ := hp
  obtain ⟨tq, hq⟩ := hq
  have hPW : List.Pairwise (fun a b => a + 2 ≤ b) ((scanToks s 0).map Prod.fst) :=
    List.pairwise_map.mpr (scanToks_pairwise s 0)
  have hPWFar : List.Pairwise Far ((scanToks s 0).map Prod.fst) :=
    hPW.imp (fun h => Or.inl h)
  exact List.Pairwise.forall (fun _ _ h => far_symm h) hPWFar
    (List.mem_map_of_mem _ hp) (List.mem_map_of_mem _ hq) hne

/-- C6: in `_clean_data`, the length of the string is preserved; every
position outside the spans of the matched pairs (in particular every
unmatched delimiter occurrence and all non-delimiter content) keeps its
original character; and every matched pair is a same-kind open/close
delimiter pair (block or variable, the open strictly before the close)
whose two tokens are rewritten to the comment-open and comment-close
tokens. -/
theorem clean_data_matched_pairs (s : PStr) :
    (cleanStr s).length = s.length ∧
    (∀ x : Nat,
      (∀ pr ∈ cleanPairs s, x ≠ pr.1 ∧ x ≠ pr.1 + 1 ∧ x ≠ pr.2 ∧ x ≠ pr.2 + 1) →
      (cleanStr s)[x]? = s[x]?) ∧
    (∀ pr ∈ cleanPairs s,
      pr.1 + 2 ≤ pr.2 ∧
      ((s[pr.1]? = some '{' ∧ s[pr.1 + 1]? = some '%' ∧
        s[pr.2]? = some '%' ∧ s[pr.2 + 1]? = some '}') ∨
       (s[pr.1]? = some '{' ∧ s[pr.1 + 1]? = some '{' ∧
        s[pr.2]? = some '}' ∧ s[pr.2 + 1]? = some '}')) ∧
      (cleanStr s)[pr.1]? = some '{' ∧ (cleanStr s)[pr.1 + 1]? = some '#' ∧
      (cleanStr s)[pr.2]? = some '#' ∧ (cleanStr s)[pr.2 + 1]? = some '}') ∧
    (∀ tk ∈ scanToks s 0,
      (∀ pr ∈ cleanPairs s, tk.1 ≠ pr.1 ∧ tk.1 ≠ pr.2) →
      (cleanStr s)[tk.1]? = s[tk.1]? ∧ (cleanStr s)[tk.1 + 1]? = s[tk.1 + 1]?) := by
  obtain ⟨hkinds, hFar, hcomps⟩ := cleanPairs_spec s
  have hbounds : ∀ pr ∈ cleanPairs s, pr.1 + 2 ≤ pr.2 ∧ pr.2 + 2 ≤ s.length := by
    intro pr hpr
    refine ⟨(hkinds pr hpr).2, ?_⟩
    have h2 := hcomps pr.2 (mem_pairComps _ pr hpr).2
    obtain ⟨t, ht⟩ := h2
    have := scanToks_bounds s 0 (pr.2, t) ht
    simpa using this.2
  refine ⟨foldl_applyPair_length _ s, ?_, ?_, ?_⟩
  · intro x hx
    exact foldl_applyPair_untouched _ s x hx
  · intro pr hpr
    have hchars := foldl_applyPair_pair_chars (cleanPairs s) s hFar hbounds pr hpr
    have hsrc : (s[pr.1]? = some '{' ∧ s[pr.1 + 1]? = some '%' ∧
        s[pr.2]? = some '%' ∧ s[pr.2 + 1]? = some '}') ∨
        (s[pr.1]? = some '{' ∧ s[pr.1 + 1]? = some '{' ∧
        s[pr.2]? = some '}' ∧ s[pr.2 + 1]? = some '}') := by
      rcases (hkinds pr hpr).1 with ⟨ho, hc⟩ | ⟨ho, hc⟩
      · have h1 := scanToks_chars s 0 (pr.1, Tok.blkS) ho
        have h2 := scanToks_chars s 0 (pr.2, Tok.blkE) hc
        simp only [tokChars] at h1 h2
        exact Or.inl ⟨by simpa using h1.1, by simpa using h1.2,
          by simpa using h2.1, by simpa using h2.2⟩
      · have h1 := scanToks_chars s 0 (pr.1, Tok.varS) ho
        have h2 := scanToks_chars s 0 (pr.2, Tok.varE) hc
        simp only [tokChars] at h1 h2
        exact Or.inr ⟨by simpa using h1.1, by simpa using h1.2,
          by simpa using h2.1, by simpa using h2.2⟩
    exact ⟨(hkinds pr hpr).2, hsrc, hchars.1, hchars.2.1, hchars.2.2.1, hchars.2.2.2⟩
  · intro tk htk hne
    have hfar : ∀ pr ∈ cleanPairs s, Far tk.1 pr.1 ∧ Far tk.1 pr.2 := by
      intro pr hpr
      have hm := mem_pairComps _ pr hpr
      constructor
      · exact scanToks_far s tk.1 pr.1 ⟨tk.2, htk⟩ (hcomps pr.1 hm.1) (hne pr hpr).1
      · exact scanToks_far s tk.1 pr.2 ⟨tk.2, htk⟩ (hcomps pr.2 hm.2) (hne pr hpr).2
    constructor
    · refine foldl_applyPair_untouched _ s tk.1 ?_
      intro pr hpr
      obtain ⟨f1, f2⟩ := hfar pr hpr
      rcases f1 with f1 | f1 <;> rcases f2 with f2 | f2 <;>
        exact ⟨by omega, by omega, by omega, by omega⟩
    · refine foldl_applyPair_untouched _ s (tk.1 + 1) ?_
      intro pr hpr
      obtain ⟨f1, f2⟩ := hfar pr hpr
      rcases f1 with f1 | f1 <;> rcases f2 with f2 | f2 <;>
        exact ⟨by omega, by omega, by omega, by omega⟩

/-- A concrete neutralization scenario: one matched variable pair and one
unmatched block-end token. -/
def cleanSample : PStr := chs "a" ++ ['{', '{'] ++ chs "b" ++ ['}', '}'] ++ ['%', '}']

/-- Witness for C6 at `cleanSample`: length preserved, the unmatched
block-end untouched, the matched pair rewritten to comment delimiters. -/
theorem clean_data_matched_pairs_witness :
    (cleanStr cleanSample).length = cleanSample.length ∧
    (cleanStr cleanSample)[6]? = cleanSample[6]? ∧
    (cleanStr cleanSample)[1]? = some '{' ∧
    (cleanStr cleanSample)[2]? = some '#' ∧
    (cleanStr cleanSample)[4]? = some '#' ∧
    (cleanStr cleanSample)[5]? = some '}' := by
  have h := clean_data_matched_pairs cleanSample
  have hpair := h.2.2.1 (1, 4) (by decide)
  exact ⟨h.1, (h.2.1 6 (by decide)),
    hpair.2.2.1, hpair.2.2.2.1, hpair.2.2.2.2.1, hpair.2.2.2.2.2⟩

/-- C2 counterexample: a tainted non-text value passed to `template()` is
unwrapped, its content passed through the neutralization pass, and the
result returned WITHOUT the taint mark — the claim says the result is
still tainted.  (No rendering happens: the render counter is 0.) -/
theorem template_tainted_cex :
    templateV cfg0 none true env0 [] (.vunsafeProxy (.vstr (braced "x"))) {} =
      (.ok (.vstr ['{', '#', 'x', '#', '}']), [], 0) ∧
    hasUnsafeAttr (.vstr ['{', '#', 'x', '#', '}']) = false := by
  constructor
  · rw [templateV]; rfl
  · rfl

/-- C2 amended: a value carrying the taint mark is never rendered (the
render counter stays 0 and the expression engine is not consulted).  A
tainted text value is passed to `_clean_data`, which returns any value
carrying the unsafe marker unchanged, so the same tainted value comes
back (content not even neutralized).  A tainted non-text value has its
underlying `_obj` passed through `_clean_data` and the result is returned
without the taint mark being re-applied. -/
theorem template_tainted_amended :
    ∀ (cfg : EngineCfg) (fof : Option Bool) (fou : Bool) (env : VarEnv)
      (cache : Cache) (o : TOpts) (s : PStr) (obj : Value),
      templateV cfg fof fou env cache (.vunsafeText s) o =
        (.ok (.vunsafeText s), cache, 0) ∧
      templateV cfg fof fou env cache (.vunsafeProxy obj) o =
        (.ok (cleanDataV obj), cache, 0) ∧
      hasUnsafeAttr (cleanDataV obj) = hasUnsafeAttr obj := by
  intro cfg fof fou env cache o s obj
  refine ⟨?_, ?_, ?_⟩
  · rw [templateV]; rfl
  · rw [templateV]
  · cases obj <;> rfl

/-- C8: `set_available_variables` fails with the InvalidArgument-kind
error (the `assert isinstance(variables, dict)`) for every non-mapping
argument, leaving the variable environment and the cache unchanged; for
every mapping argument it replaces the environment and clears the result
cache. -/
theorem set_available_variables_spec :
    ∀ (v : Value) (env : VarEnv) (cache : Cache),
      ((∀ entries, v ≠ .vdict entries) →
        set_available_variables v env cache = (.error .invalidArgument, env, cache)) ∧
      (∀ entries, v = .vdict entries →
        set_available_variables v env cache = (.ok (), entries, [])) := by
  intro v env cache
  constructor
  · intro h
    cases v <;> first | rfl | exact absurd rfl (h _)
  · intro entries h
    subst h
    rfl

/-- Witness for C8: a non-mapping argument fails and changes nothing; a
mapping argument replaces the environment and empties the cache. -/
theorem set_available_variables_spec_witness :
    set_available_variables (.vint 3) env0 [((chs "k", chs "o"), .vnone)] =
      (.error .invalidArgument, env0, [((chs "k", chs "o"), .vnone)]) ∧
    set_available_variables (.vdict [(.vstr (chs "a"), .vint 1)]) env0
        [((chs "k", chs "o"), .vnone)] =
      (.ok (), [(.vstr (chs "a"), .vint 1)], []) :=
  ⟨(set_available_variables_spec (.vint 3) env0 _).1 (fun _ h => Value.noConfusion h),
   (set_available_variables_spec (.vdict [(.vstr (chs "a"), .vint 1)]) env0 _).2 _ rfl⟩

/-- C9 (code bug): `Templar.__init__` never sets `_fail_on_filter_errors`,
so when a render raises `TemplatesFilterError` the `except` handler's
attribute read raises `AttributeError` instead of letting the
FilterError propagate (first conjunct).  Had the attribute been set, the
claimed behavior would appear: propagation when true, original value when
false (second and third conjuncts). -/
theorem filter_error_attribute_bug :
    (templateV cfgF none true env0 [] (.vstr (chs "x " ++ braced "q | bogus")) {}).1 =
      .error .attributeError ∧
    (templateV cfgF (some true) true env0 [] (.vstr (chs "x " ++ braced "q | bogus")) {}).1 =
      .error .filterError ∧
    (templateV cfgF (some false) true env0 [] (.vstr (chs "x " ++ braced "q | bogus")) {}).1 =
      .ok (.vstr (chs "x " ++ braced "q | bogus")) := by
  refine ⟨?_, ?_, ?_⟩ <;> (rw [templateV, templateBody]; rfl)

/-- C10: a subexpression that evaluates to null inside a larger template
is finalized to the empty string, so it contributes nothing to the
rendered output — rendering with the null expression present equals
rendering with that segment removed.  Without the finalize hook the
contribution would have been `str(None) = "None"` (third conjunct). -/
theorem finalize_null_empty :
    ∀ (env : VarEnv) (n : PStr) (a b : List Seg),
      lookupName n env = some .vnone →
      renderSegs env (a ++ .exprSeg n :: b) = renderSegs env (a ++ b) ∧
      pyToStr (finalizeV .vnone) = [] ∧
      pyToStr Value.vnone = chs "None" := by
  intro env n a b h
  refine ⟨?_, rfl, rfl⟩
  induction a with
  | nil =>
    cases hb : renderSegs env b <;>
      simp [renderSegs, h, hb, finalizeV, pyToStr]
  | cons s rest ih =>
    cases s <;> simp [renderSegs, ih]

/-- Witness for C10: with `x` bound to null, rendering `a{{x}}b` yields
exactly `ab`. -/
theorem finalize_null_empty_witness :
    renderSegs [(.vstr (chs "x"), Value.vnone)]
        [Seg.lit (chs "a"), Seg.exprSeg (chs "x"), Seg.lit (chs "b")] =
      renderSegs [(.vstr (chs "x"), Value.vnone)] [Seg.lit (chs "a"), Seg.lit (chs "b")] ∧
    renderSegs [(.vstr (chs "x"), Value.vnone)]
        [Seg.lit (chs "a"), Seg.exprSeg (chs "x"), Seg.lit (chs "b")] = .ok (chs "ab") :=
  ⟨(finalize_null_empty [(.vstr (chs "x"), Value.vnone)] (chs "x")
      [Seg.lit (chs "a")] [Seg.lit (chs "b")] rfl).1, rfl⟩

/-- Word characters are not whitespace. -/
theorem word_not_space (c : Char) (h : isWordChar c = true) : isSpaceC c = false := by
  simp only [isWordChar, Bool.or_eq_true, Bool.and_eq_true, decide_eq_true_eq] at h
  simp only [isSpaceC, Bool.or_eq_false_iff, decide_eq_false_iff_not]
  omega

/-- Word characters are not the pipe, newline, backslash, brace, percent
or hash characters. -/
theorem word_char_vals (c : Char) (h : isWordChar c = true) :
    c ≠ '|' ∧ c ≠ '\n' ∧ c ≠ bsl ∧ c ≠ '{' ∧ c ≠ '}' ∧ c ≠ '%' ∧ c ≠ '#' := by
  refine ⟨?_, ?_, ?_, ?_, ?_, ?_, ?_⟩ <;>
    (intro he; subst he; exact absurd h (by decide))

/-- Stripping whitespace from an all-word-character string changes
nothing. -/
theorem trimWs_word (n : PStr) (h : n.all isWordChar = true) : trimWs n = n := by
  have h1 : ∀ m : PStr, m.all isWordChar = true → m.dropWhile isSpaceC = m := by
    intro m hm
    cases m with
    | nil => rfl
    | cons c t =>
      simp only [List.all_cons, Bool.and_eq_true] at hm
      rw [List.dropWhile_cons_of_neg]
      simp [word_not_space c hm.1]
  have h2 : n.reverse.all isWordChar = true := by
    rw [List.all_eq_true] at h ⊢
    intro x hx
    exact h x (List.mem_reverse.mp hx)
  unfold trimWs
  rw [h1 n h, h1 n.reverse h2, List.reverse_reverse]

/-- `SINGLE_VAR` matches a braced word-character name and captures it. -/
theorem singleVar_braced (n : PStr) (h : n.all isWordChar = true) :
    singleVar (['{', '{'] ++ n ++ ['}', '}']) = some n := by
  have hpre : (['{', '{'] : PStr).isPrefixOf (['{', '{'] ++ n ++ ['}', '}']) = true := by
    simp [List.isPrefixOf]
  have hsuf : (['}', '}'] : PStr).isSuffixOf (['{', '{'] ++ n ++ ['}', '}']) = true := by
    simp [List.isSuffixOf, List.reverse_append, List.isPrefixOf]
  have hlen : (['{', '{'] ++ n ++ ['}', '}']).length = n.length + 4 := by
    simp [List.length_append]
  have hdrop : (['{', '{'] ++ n ++ ['}', '}']).drop 2 = n ++ ['}', '}'] := rfl
  have hmid : ((['{', '{'] ++ n ++ ['}', '}']).drop 2).take
      ((['{', '{'] ++ n ++ ['}', '}']).length - 4) = n := by
    rw [hdrop, hlen]
    simp [List.take_left n ['}', '}']]
  have hall2 : (n.all fun c => isWordChar c || isSpaceC c) = true := by
    rw [List.all_eq_true] at h ⊢
    intro x hx
    simp [h x hx]
  unfold singleVar
  rw [if_pos]
  · simp only [hmid, trimWs_word n h, hall2, h]
    simp
  · simp only [hpre, hsuf, hlen, Bool.and_eq_true, decide_eq_true_eq, true_and]
    omega

/-- A braced payload contains the variable-start marker. -/
theorem containsVars_braced (n : PStr) :
    containsVars (['{', '{'] ++ n ++ ['}', '}']) = true := by
  have h1 : containsSub ['{', '{'] ('{' :: '{' :: (n ++ ['}', '}'])) = true := by
    rw [containsSub]
    simp [List.isPrefixOf]
  show containsVars ('{' :: '{' :: (n ++ ['}', '}'])) = true
  simp [containsVars, h1]

/-- A string without a pipe character never matches `_no_type_regex`. -/
theorem noPipe_noTypeMatch (s : PStr) (h : ('|') ∉ s) : noTypeMatch s = false := by
  rw [noTypeMatch, List.any_eq_false]
  intro w hw
  simp only [splitsOf, List.mem_map, List.mem_range] at hw
  obtain ⟨i, _, rfl⟩ := hw
  cases hd : s.drop i with
  | nil => simp [hd]
  | cons c b =>
    have hc : c ∈ s := List.drop_subset i s (hd ▸ List.mem_cons_self _ _)
    have hne : c ≠ '|' := fun he => h (he ▸ hc)
    simp [hd, hne]

/-- A braced word-character payload has no trailing newlines. -/
theorem countNl_braced (n : PStr) :
    countNewlinesFromEnd (['{', '{'] ++ n ++ ['}', '}']) = 0 := by
  unfold countNewlinesFromEnd
  have : (['{', '{'] ++ n ++ ['}', '}']).reverse = '}' :: '}' :: (n.reverse ++ ['{', '{']) := by
    simp [List.reverse_append]
  rw [this, List.takeWhile_cons_of_neg]
  · rfl
  · simp

/-- A character list not containing a character reports `contains` false. -/
theorem contains_eq_false_of_not_mem (a : Char) (l : PStr) (h : a ∉ l) :
    l.contains a = false := by
  induction l with
  | nil => rfl
  | cons c t ih =>
    simp only [List.mem_cons, not_or] at h
    rw [List.contains_cons, ih h.2]
    simp [h.1]

/-- The backslash does not occur in a braced word-character payload. -/
theorem bsl_not_mem_braced (n : PStr) (h : n.all isWordChar = true) :
    bsl ∉ (['{', '{'] ++ n ++ ['}', '}'] : PStr) := by
  intro hm
  simp only [List.mem_append, List.mem_cons, List.not_mem_nil, or_false] at hm
  rcases hm with (hm | hm) | hm
  · rcases hm with hm | hm <;> exact absurd hm (by decide)
  · exact absurd (List.all_eq_true.mp h bsl hm) (by decide)
  · rcases hm with hm | hm <;> exact absurd hm (by decide)

/-- The pipe does not occur in a braced word-character payload. -/
theorem pipe_not_mem_braced (n : PStr) (h : n.all isWordChar = true) :
    ('|') ∉ (['{', '{'] ++ n ++ ['}', '}'] : PStr) := by
  intro hm
  simp only [List.mem_append, List.mem_cons, List.not_mem_nil, or_false] at hm
  rcases hm with (hm | hm) | hm
  · rcases hm with hm | hm <;> exact absurd hm (by decide)
  · exact absurd (List.all_eq_true.mp h ('|') hm) (by decide)
  · rcases hm with hm | hm <;> exact absurd hm (by decide)

/-- A payload not starting with `#` carries no `#jinja2:` header. -/
theorem headerOverrides_plain (s : PStr) (h : JINJA2_OVERRIDE.isPrefixOf s = false) :
    headerOverrides s = .ok (s, []) := by
  unfold headerOverrides
  simp [h]

/-- A braced payload does not start with the header marker. -/
theorem header_prefix_braced (n : PStr) :
    JINJA2_OVERRIDE.isPrefixOf (['{', '{'] ++ n ++ ['}', '}']) = false := by
  show JINJA2_OVERRIDE.isPrefixOf ('{' :: '{' :: (n ++ ['}', '}'])) = false
  rfl

/-- Without a backslash the escape pass is the identity. -/
theorem escapeFn_plain (cfg : EngineCfg) (d : PStr) (h : d.contains bsl = false) :
    escapeBackslashesFn cfg d = d := by
  unfold escapeBackslashesFn
  rw [h]
  simp

/-- `_do_template` on a payload with no header line and no backslash: the
header and escape stages leave the payload untouched. -/
theorem doTemplate_plain (cfg : EngineCfg) (env : VarEnv) (s : PStr)
    (pnl ebs fou : Bool) (ov : Ov)
    (h1 : JINJA2_OVERRIDE.isPrefixOf s = false)
    (h2 : s.contains bsl = false) :
    doTemplate cfg env s pnl ebs fou ov =
      (match cfg.fromString s ov [] with
       | .error .templateSyntax => .error .templatesError
       | .error .otherRecursion => .error .recursiveLoop
       | .error .otherPlain => .ok (s, false)
       | .ok _ =>
         match cfg.renderStr s env ov [] with
         | .error .undefinedError => if fou then .error .undefinedVar else .ok (s, false)
         | .error .typeErrorStrict => if fou then .error .undefinedVar else .ok (s, false)
         | .error .typeErrorOther => .error .templatesError
         | .error .filterError => .error .filterError
         | .ok (res, uns) =>
           if pnl && countNewlinesFromEnd res < countNewlinesFromEnd s then
             .ok (res ++ List.replicate (countNewlinesFromEnd s - countNewlinesFromEnd res) '\n',
               uns)
           else .ok (res, uns)) := by
  unfold doTemplate
  rw [headerOverrides_plain s h1]
  cases ebs <;> simp [escapeFn_plain cfg s h2]

/-- The string path taken by `template()` when the payload contains
delimiters and the single-variable shortcut fires. -/
theorem templateStr_shortcut (cfg : EngineCfg) (env : VarEnv) (cache : Cache)
    (s : PStr) (o : TOpts) (fou : Bool) (v : Value)
    (h1 : containsVars s = true) (h2 : shortcutVal env s = some v) :
    templateStr cfg env cache s o fou = (.ok v, cache, 0) := by
  unfold templateStr
  simp [h1, h2]

/-- Lifting a successful `templateStr` run through the value dispatch and
the filter-error handler of `template()`. -/
theorem templateV_str_ok (cfg : EngineCfg) (fof : Option Bool) (fouD : Bool)
    (env : VarEnv) (cache : Cache) (s : PStr) (o : TOpts) (v : Value)
    (c2 : Cache) (k : Nat) (hCB : o.convertBare = false)
    (h : templateStr cfg env cache s o (o.failOnUndefined.getD fouD) = (.ok v, c2, k)) :
    templateV cfg fof fouD env cache (.vstr s) o = (.ok v, c2, k) := by
  rw [templateV, templateBody]
  simp only [hCB, Bool.false_eq_true, if_false, h]

/-- Lifting a failing `templateStr` run (any error other than the filter
error) through the dispatch and the handler. -/
theorem templateV_str_err (cfg : EngineCfg) (fof : Option Bool) (fouD : Bool)
    (env : VarEnv) (cache : Cache) (s : PStr) (o : TOpts) (e : TErr)
    (c2 : Cache) (k : Nat) (hCB : o.convertBare = false) (he : e ≠ .filterError)
    (h : templateStr cfg env cache s o (o.failOnUndefined.getD fouD) = (.error e, c2, k)) :
    templateV cfg fof fouD env cache (.vstr s) o = (.error e, c2, k) := by
  rw [templateV, templateBody]
  simp only [hCB, Bool.false_eq_true, if_false, h]
  cases e <;> first | rfl | exact absurd rfl he

/-- A braced payload (the string `{{n}}`). -/
def bracedL (n : PStr) : PStr := ['{', '{'] ++ n ++ ['}', '}']

/-- The cache-miss render path of the string branch of `template()`. -/
theorem templateStr_render_ok (cfg : EngineCfg) (env : VarEnv) (cache : Cache)
    (s : PStr) (o : TOpts) (fou : Bool) (r : PStr) (uns : Bool)
    (hvars : containsVars s = true)
    (hshort : shortcutVal env s = none)
    (hmiss : (if o.cache then
        lookupCache cache (cacheKey s o.preserveTrailingNewlines o.escapeBackslashes
          fou o.overrides)
      else none) = none)
    (hdo : doTemplate cfg env s o.preserveTrailingNewlines o.escapeBackslashes
        fou o.overrides = .ok (r, uns)) :
    templateStr cfg env cache s o fou =
      (.ok (coerceResult cfg env s r uns o.convertData),
       (if o.cache then
          (cacheKey s o.preserveTrailingNewlines o.escapeBackslashes fou o.overrides,
            coerceResult cfg env s r uns o.convertData) :: cache
        else cache), 1) := by
  unfold templateStr
  simp only [hvars, hshort, Bool.true_eq_false, if_false]
  rw [hmiss, hdo]

/-- The cache-miss failing-render path of the string branch. -/
theorem templateStr_render_err (cfg : EngineCfg) (env : VarEnv) (cache : Cache)
    (s : PStr) (o : TOpts) (fou : Bool) (e : TErr)
    (hvars : containsVars s = true)
    (hshort : shortcutVal env s = none)
    (hmiss : (if o.cache then
        lookupCache cache (cacheKey s o.preserveTrailingNewlines o.escapeBackslashes
          fou o.overrides)
      else none) = none)
    (hdo : doTemplate cfg env s o.preserveTrailingNewlines o.escapeBackslashes
        fou o.overrides = .error e) :
    templateStr cfg env cache s o fou = (.error e, cache, 1) := by
  unfold templateStr
  simp only [hvars, hshort, Bool.true_eq_false, if_false]
  rw [hmiss, hdo]

/-- The shortcut decision for a braced bound name. -/
theorem shortcutVal_braced (env : VarEnv) (n : PStr) (v : Value)
    (hw : n.all isWordChar = true) (hl : lookupName n env = some v) :
    shortcutVal env (bracedL n) =
      (if isNonTemplatedType v then some v
       else
         match v with
         | .vnone => some DEFAULT_NULL_REPRESENTATION
         | _ => none) := by
  unfold shortcutVal
  rw [show singleVar (bracedL n) = some n from singleVar_braced n hw]
  simp only [hl]
  cases v <;> rfl

/-- C3: when the whole payload is syntactically exactly the variable
reference `{{n}}` and `n` is bound, `template()` returns the bound value
with its native type rather than a stringification: a boolean or integer
is returned raw by the single-variable shortcut, a null-bound name
returns the configured null representation, and a dict- or list-bound
name round-trips through the external render and the `safe_eval` literal
coercion back to an equal native value (the external engine's behavior on
`{{n}}` — rendering to the value's textual form that parses back to the
value — enters as hypotheses, discharged concretely in the witness). -/
theorem template_single_var_types :
    ∀ (cfg : EngineCfg) (env : VarEnv) (cache : Cache) (fof : Option Bool)
      (fouD : Bool) (o : TOpts) (n : PStr) (v : Value),
      n.all isWordChar = true →
      lookupName n env = some v →
      o.convertBare = false →
      ((∀ b, v = .vbool b →
          templateV cfg fof fouD env cache (.vstr (bracedL n)) o = (.ok v, cache, 0)) ∧
       (∀ i, v = .vint i →
          templateV cfg fof fouD env cache (.vstr (bracedL n)) o = (.ok v, cache, 0)) ∧
       (v = .vnone →
          templateV cfg fof fouD env cache (.vstr (bracedL n)) o =
            (.ok DEFAULT_NULL_REPRESENTATION, cache, 0)) ∧
       (∀ r, ((∃ entries, v = .vdict entries) ∨ (∃ xs, v = .vlist xs)) →
          cfg.fromString (bracedL n) none [] = .ok () →
          cfg.renderStr (bracedL n) env none [] = .ok (r, false) →
          coerceGuard r = true →
          safe_eval_exc r (cfg.parseEval r) env = (.val v, none) →
          templateV cfg fof fouD env [] (.vstr (bracedL n)) {} =
            (.ok v, [(cacheKey (bracedL n) true true fouD none, v)], 1))) := by
  intro cfg env cache fof fouD o n v hw hl hCB
  have hvars : containsVars (bracedL n) = true := containsVars_braced n
  refine ⟨?_, ?_, ?_, ?_⟩
  · intro b hv
    subst hv
    apply templateV_str_ok _ _ _ _ _ _ _ _ _ _ hCB
    refine templateStr_shortcut _ _ _ _ _ _ _ hvars ?_
    rw [shortcutVal_braced env n _ hw hl]
    rfl
  · intro i hv
    subst hv
    apply templateV_str_ok _ _ _ _ _ _ _ _ _ _ hCB
    refine templateStr_shortcut _ _ _ _ _ _ _ hvars ?_
    rw [shortcutVal_braced env n _ hw hl]
    rfl
  · intro hv
    subst hv
    apply templateV_str_ok _ _ _ _ _ _ _ _ _ _ hCB
    refine templateStr_shortcut _ _ _ _ _ _ _ hvars ?_
    rw [shortcutVal_braced env n _ hw hl]
    rfl
  · intro r hshape hfs hrs hguard hse
    have hshort : shortcutVal env (bracedL n) = none := by
      rw [shortcutVal_braced env n v hw hl]
      rcases hshape with ⟨entries, hv⟩ | ⟨xs, hv⟩ <;> subst hv <;> rfl
    have hdo : doTemplate cfg env (bracedL n) true true fouD none = .ok (r, false) := by
      rw [doTemplate_plain cfg env (bracedL n) true true fouD none
        (header_prefix_braced n)
        (contains_eq_false_of_not_mem _ _ (bsl_not_mem_braced n hw))]
      rw [hfs, hrs]
      rw [show countNewlinesFromEnd (bracedL n) = 0 from countNl_braced n]
      simp
    have hco : coerceResult cfg env (bracedL n) r false true = v := by
      unfold coerceResult
      rw [show noTypeMatch (bracedL n) = false from
        noPipe_noTypeMatch _ (pipe_not_mem_braced n hw), hguard]
      simp only [Bool.not_false, Bool.and_true, Bool.true_and, if_true]
      rw [hse]
      rfl
    apply templateV_str_ok _ _ _ _ _ _ _ _ _ _ rfl
    rw [show ({} : TOpts).failOnUndefined.getD fouD = fouD from rfl]
    rw [templateStr_render_ok cfg env [] (bracedL n) {} fouD r false hvars hshort rfl hdo]
    rw [show coerceResult cfg env (bracedL n) r false ({} : TOpts).convertData = v from hco]
    rfl

/-- Witness for C3 against the concrete engine: booleans, integers and
null return raw via the shortcut; dict and list values round-trip through
the render and the literal coercion to equal native values. -/
theorem template_single_var_types_witness :
    templateV cfg0 none true env0 [] (.vstr (bracedL (chs "var_true"))) {} =
      (.ok (.vbool true), [], 0) ∧
    templateV cfg0 none true env0 [] (.vstr (bracedL (chs "num"))) {} =
      (.ok (.vint 1), [], 0) ∧
    templateV cfg0 none true env0 [] (.vstr (bracedL (chs "var_null"))) {} =
      (.ok DEFAULT_NULL_REPRESENTATION, [], 0) ∧
    templateV cfg0 none true env0 [] (.vstr (bracedL (chs "var_dict"))) {} =
      (.ok vdictAB,
        [(cacheKey (bracedL (chs "var_dict")) true true true none, vdictAB)], 1) ∧
    templateV cfg0 none true env0 [] (.vstr (bracedL (chs "var_list"))) {} =
      (.ok (.vlist [.vint 1]),
        [(cacheKey (bracedL (chs "var_list")) true true true none, .vlist [.vint 1])], 1) := by
  refine ⟨?_, ?_, ?_, ?_, ?_⟩
  · exact (template_single_var_types cfg0 env0 [] none true {} (chs "var_true")
      (.vbool true) (by decide) rfl rfl).1 true rfl
  · exact (template_single_var_types cfg0 env0 [] none true {} (chs "num")
      (.vint 1) (by decide) rfl rfl).2.1 1 rfl
  · exact (template_single_var_types cfg0 env0 [] none true {} (chs "var_null")
      Value.vnone (by decide) rfl rfl).2.2.1 rfl
  · exact (template_single_var_types cfg0 env0 [] none true {} (chs "var_dict")
      vdictAB (by decide) rfl rfl).2.2.2 dictABRepr
      (Or.inl ⟨_, rfl⟩) rfl rfl rfl rfl
  · exact (template_single_var_types cfg0 env0 [] none true {} (chs "var_list")
      (.vlist [.vint 1]) (by decide) rfl rfl).2.2.2 listOneRepr
      (Or.inr ⟨_, rfl⟩) rfl rfl rfl rfl

/-- C5 counterexample: in soft mode (`fail_on_undefined=False`), an
undefined variable in a payload carrying a `#jinja2:` header line makes
`template()` return the payload with that line stripped — not the
original payload unchanged, as the claim states. -/
theorem template_undefined_soft_cex :
    (templateV cfg0 none true env0 []
        (.vstr (chs "#jinja2:trim_blocks:False\n" ++ bracedL (chs "bad_var")))
        { failOnUndefined := some false }).1 =
      .ok (.vstr (bracedL (chs "bad_var"))) ∧
    chs "#jinja2:trim_blocks:False\n" ++ bracedL (chs "bad_var") ≠
      bracedL (chs "bad_var") := by
  constructor
  · rw [templateV, templateBody]
    rfl
  · decide

/-- C5 amended: when the external render reports an undefined variable,
`template()` raises the UndefinedVariable error kind if
`fail_on_undefined` resolves to true (the construction default); if it
resolves to false, it returns the payload as it stood after
header-override stripping and backslash escaping — for a payload with no
`#jinja2:` header and no backslash (and which does not look like a
container/boolean literal to the coercion pass), the original string
unchanged. -/
theorem template_undefined_amended :
    ∀ (cfg : EngineCfg) (env : VarEnv) (fof : Option Bool) (cache : Cache)
      (s : PStr) (o : TOpts) (fouD : Bool),
      o.convertBare = false →
      containsVars s = true →
      shortcutVal env s = none →
      (if o.cache then
          lookupCache cache (cacheKey s o.preserveTrailingNewlines o.escapeBackslashes
            (o.failOnUndefined.getD fouD) o.overrides)
        else none) = none →
      JINJA2_OVERRIDE.isPrefixOf s = false →
      s.contains bsl = false →
      cfg.fromString s o.overrides [] = .ok () →
      cfg.renderStr s env o.overrides [] = .error .undefinedError →
      ((o.failOnUndefined.getD fouD = true →
          templateV cfg fof fouD env cache (.vstr s) o = (.error .undefinedVar, cache, 1)) ∧
       (o.failOnUndefined.getD fouD = false →
          coerceGuard s = false →
          templateV cfg fof fouD env cache (.vstr s) o =
            (.ok (.vstr s),
             (if o.cache then
                (cacheKey s o.preserveTrailingNewlines o.escapeBackslashes
                  (o.failOnUndefined.getD fouD) o.overrides, Value.vstr s) :: cache
              else cache), 1))) := by
  intro cfg env fof cache s o fouD hCB hvars hshort hmiss hhdr hbsl hfs hrs
  constructor
  · intro hfou
    apply templateV_str_err _ _ _ _ _ _ _ _ _ _ hCB (by simp)
    refine templateStr_render_err _ _ _ _ _ _ _ hvars hshort hmiss ?_
    rw [doTemplate_plain cfg env s o.preserveTrailingNewlines o.escapeBackslashes
      (o.failOnUndefined.getD fouD) o.overrides hhdr hbsl]
    rw [hfs, hrs, hfou]
    rfl
  · intro hfou hguard
    apply templateV_str_ok _ _ _ _ _ _ _ _ _ _ hCB
    have hdo : doTemplate cfg env s o.preserveTrailingNewlines o.escapeBackslashes
        (o.failOnUndefined.getD fouD) o.overrides = .ok (s, false) := by
      rw [doTemplate_plain cfg env s o.preserveTrailingNewlines o.escapeBackslashes
        (o.failOnUndefined.getD fouD) o.overrides hhdr hbsl]
      rw [hfs, hrs, hfou]
      rfl
    rw [templateStr_render_ok cfg env cache s o (o.failOnUndefined.getD fouD) s false
      hvars hshort hmiss hdo]
    have hco : coerceResult cfg env s s false o.convertData = .vstr s := by
      unfold coerceResult
      rw [hguard]
      simp [strResult]
    rw [hco]

/-- Witness for C5 at the concrete engine: `{{bad_var}}` raises the
undefined-variable error by default and comes back verbatim in soft
mode. -/
theorem template_undefined_amended_witness :
    templateV cfg0 none true env0 [] (.vstr (bracedL (chs "bad_var"))) {} =
      (.error .undefinedVar, [], 1) ∧
    templateV cfg0 none true env0 [] (.vstr (bracedL (chs "bad_var")))
        { failOnUndefined := some false } =
      (.ok (.vstr (bracedL (chs "bad_var"))),
       [(cacheKey (bracedL (chs "bad_var")) true true false none,
         Value.vstr (bracedL (chs "bad_var")))], 1) :=
  ⟨(template_undefined_amended cfg0 env0 none [] (bracedL (chs "bad_var")) {} true
      rfl (containsVars_braced _) rfl rfl rfl rfl rfl rfl).1 rfl,
   (template_undefined_amended cfg0 env0 none [] (bracedL (chs "bad_var"))
      { failOnUndefined := some false } true
      rfl (containsVars_braced _) rfl rfl rfl rfl rfl rfl).2 rfl rfl⟩

/-- Dict lookup after a dict store finds the stored value. -/
theorem lookupCache_cons (k : PStr × PStr) (v : Value) (rest : Cache) :
    lookupCache ((k, v) :: rest) k = some v := by
  simp [lookupCache, List.find?]

/-- A successful string-path call leaves the cache in a state from which
the identical call returns the identical result without rendering. -/
theorem templateStr_idempotent (cfg : EngineCfg) (env : VarEnv) (cache : Cache)
    (s : PStr) (o : TOpts) (fou : Bool) (r : Value) (c2 : Cache) (k : Nat)
    (hc : o.cache = true)
    (h : templateStr cfg env cache s o fou = (.ok r, c2, k)) :
    templateStr cfg env c2 s o fou = (.ok r, c2, 0) := by
  unfold templateStr at h ⊢
  cases hv : containsVars s with
  | false =>
    rw [hv] at h
    rw [if_pos rfl] at h ⊢
    simp only [Prod.mk.injEq, Except.ok.injEq] at h
    rw [h.1]
  | true =>
    rw [hv] at h
    rw [if_neg (by simp)] at h ⊢
    cases hs : shortcutVal env s with
    | some v =>
      rw [hs] at h
      simp only [Prod.mk.injEq, Except.ok.injEq] at h
      show (Except.ok v, c2, 0) = (Except.ok r, c2, 0)
      rw [h.1]
    | none =>
      rw [hs] at h
      simp only [hc, reduceIte] at h ⊢
      cases hl : lookupCache cache
          (cacheKey s o.preserveTrailingNewlines o.escapeBackslashes fou o.overrides) with
      | some q =>
        rw [hl] at h
        simp only [Prod.mk.injEq, Except.ok.injEq] at h
        obtain ⟨h1, h2, h3⟩ := h
        rw [← h2, hl, h1]
      | none =>
        rw [hl] at h
        cases hdo : doTemplate cfg env s o.preserveTrailingNewlines o.escapeBackslashes
            fou o.overrides with
        | error e =>
          rw [hdo] at h
          simp at h
        | ok p =>
          rw [hdo] at h
          simp only [Prod.mk.injEq, Except.ok.injEq] at h
          obtain ⟨h1, h2, h3⟩ := h
          rw [← h2, ← h1]
          rw [lookupCache_cons]

/-- C4 counterexample: `convert_data` affects the returned value but is
not part of the cache key.  With `convert_data=True` the call on `{{d}}`
caches the coerced dict; a second call with the identical payload and
identical keyed options but `convert_data=False` is served that dict from
the cache, while the same call on a fresh engine returns the rendered
string — so the listed options are not every output-affecting option. -/
theorem template_cache_key_cex :
    templateV cfg0 none true env0 [] (.vstr (bracedL (chs "d"))) {} =
      (.ok vdictAB, [(cacheKey (bracedL (chs "d")) true true true none, vdictAB)], 1) ∧
    templateV cfg0 none true env0
        [(cacheKey (bracedL (chs "d")) true true true none, vdictAB)]
        (.vstr (bracedL (chs "d"))) { convertData := false } =
      (.ok vdictAB, [(cacheKey (bracedL (chs "d")) true true true none, vdictAB)], 0) ∧
    (templateV cfg0 none true env0 [] (.vstr (bracedL (chs "d")))
        { convertData := false }).1 = .ok (.vstr dictABRepr) ∧
    (Except.ok vdictAB : Except TErr Value) ≠ .ok (.vstr dictABRepr) := by
  refine ⟨?_, ?_, ?_, ?_⟩
  · rw [templateV, templateBody]
    rfl
  · rw [templateV, templateBody]
    rfl
  · rw [templateV, templateBody]
    rfl
  · intro h
    rw [Except.ok.injEq] at h
    exact Value.noConfusion h

/-- C4 amended: the cache key is a deterministic digest of the exact
payload and the options preserve-trailing-newlines, escape-backslashes,
fail-on-undefined and overrides (`convert_data`, which also affects the
returned value, is not part of the key).  With caching enabled, a second
call identical in payload and in all options to a successful first call
returns the identical result from the cache without re-rendering; and
`set_available_variables` with a mapping clears the cache, so a
subsequent call behaves exactly like a call on a fresh engine against
the new environment — never serving a stale entry. -/
theorem template_cache_amended :
    (∀ (cfg : EngineCfg) (fouD : Bool) (env : VarEnv) (cache : Cache) (s : PStr)
        (o : TOpts) (r : Value) (c2 : Cache) (k : Nat),
      o.cache = true → o.convertBare = false →
      templateV cfg none fouD env cache (.vstr s) o = (.ok r, c2, k) →
      templateV cfg none fouD env c2 (.vstr s) o = (.ok r, c2, 0)) ∧
    (∀ (d : List (Value × Value)) (env : VarEnv) (cache : Cache),
      (set_available_variables (.vdict d) env cache).2.2 = []) ∧
    (∀ (cfg : EngineCfg) (fof : Option Bool) (fouD : Bool) (env2 : VarEnv)
        (d : List (Value × Value)) (env : VarEnv) (cache : Cache) (v : Value) (o : TOpts),
      templateV cfg fof fouD env2 ((set_available_variables (.vdict d) env cache).2.2) v o =
        templateV cfg fof fouD env2 [] v o) := by
  refine ⟨?_, fun _ _ _ => rfl, fun _ _ _ _ _ _ _ _ _ => rfl⟩
  intro cfg fouD env cache s o r c2 k hc hcb h
  rw [templateV, templateBody] at h ⊢
  simp only [hcb, Bool.false_eq_true, if_false] at h ⊢
  rcases hR : templateStr cfg env cache s o (o.failOnUndefined.getD fouD) with ⟨res, cc, nn⟩
  rw [hR] at h
  match res, h with
  | .ok x, h =>
    simp only [Prod.mk.injEq, Except.ok.injEq] at h
    obtain ⟨h1, h2, h3⟩ := h
    have hR2 : templateStr cfg env cache s o (o.failOnUndefined.getD fouD) = (.ok r, c2, k) := by
      rw [hR, h1, h2, h3]
    rw [templateStr_idempotent cfg env cache s o (o.failOnUndefined.getD fouD) r c2 k hc hR2]
  | .error .undefinedVar, h => exact absurd h (by simp)
  | .error .templatesError, h => exact absurd h (by simp)
  | .error .recursiveLoop, h => exact absurd h (by simp)
  | .error .filterError, h => exact absurd h (by simp)
  | .error .attributeError, h => exact absurd h (by simp)
  | .error .invalidArgument, h => exact absurd h (by simp)
  | .error .valueError, h => exact absurd h (by simp)

/-- Witness for C4: the second identical call on `{{d}}` is served from
the cache with no render, and replacing the variables empties the
cache. -/
theorem template_cache_amended_witness :
    templateV cfg0 none true env0
        [(cacheKey (bracedL (chs "d")) true true true none, vdictAB)]
        (.vstr (bracedL (chs "d"))) {} =
      (.ok vdictAB, [(cacheKey (bracedL (chs "d")) true true true none, vdictAB)], 0) ∧
    (set_available_variables (.vdict [(.vstr (chs "foo"), .vstr (chs "bam"))]) env0
        [(cacheKey (bracedL (chs "d")) true true true none, vdictAB)]).2.2 = [] :=
  ⟨template_cache_amended.1 cfg0 true env0 [] (bracedL (chs "d")) {} vdictAB
      [(cacheKey (bracedL (chs "d")) true true true none, vdictAB)] 1 rfl rfl
      (by rw [templateV, templateBody]; rfl),
   template_cache_amended.2.1 _ env0 _⟩
